import Mathlib

/-!
Verification of the neuroarch query-algebra and diff/apply engine.

This file is a shallow embedding of the parts of the `neuroarch` Python
package (files `neuroarch/query.py`, `neuroarch/diff.py`,
`neuroarch/apply_diff.py`, `neuroarch/utils.py`) that the specification
claims talk about, together with theorems settling each claim.

Python dictionaries are modelled as insertion-ordered association lists
(`Dict V` below); dictionary lookup is first-match lookup, which agrees
with Python semantics whenever the keys are distinct, as they always are
for a Python `dict`.  The external OrientDB client is modelled as a pure
function from query strings to result maps; the transaction scripts the
apply engine sends to the store are modelled as lists of structured
statements (`Stmt` below), one statement per mutation statement the
Python code appends to `cmd_list`.
-/

/-- A Python `dict` keyed by strings: an insertion-ordered association list. -/
abbrev Dict (V : Type) : Type := List (String × V)

/-- First-match lookup, i.e. Python `d[k]` / `k in d` combined (`none` = `KeyError`). -/
def lookupD {V : Type} : Dict V → String → Option V
  | [], _ => none
  | (k', v) :: d, k => if k' = k then some v else lookupD d k

/-- Python `k in d`. -/
def containsKey {V : Type} (d : Dict V) (k : String) : Bool :=
  (lookupD d k).isSome

/-- The key list of a dictionary, in insertion order (Python `d.keys()`). -/
def keysD {V : Type} (d : Dict V) : List String :=
  d.map Prod.fst

/-- The key set of a dictionary (Python `set(d)`). -/
def keySet {V : Type} (d : Dict V) : Finset String :=
  (keysD d).toFinset

/-- Python `d[k] = v`: update in place if the key exists, else append. -/
def dictSet {V : Type} (d : Dict V) (k : String) (v : V) : Dict V :=
  if containsKey d k then
    d.map (fun kv => if kv.1 = k then (k, v) else kv)
  else
    d ++ [(k, v)]

/-- Source: `QueryWrapper._dict_union` (query.py).  Python computes
`c = a.copy(); c.update(b); return c`: keys of `a` keep their position but
take `b`'s value on collision, keys only in `b` are appended. -/
def dict_union {V : Type} (a b : Dict V) : Dict V :=
  a.map (fun kv => (kv.1, ((lookupD b kv.1).getD kv.2))) ++
    b.filter (fun kv => !containsKey a kv.1)

/-- Source: `QueryWrapper._dict_intersection` (query.py):
`{k: a[k] for k in set(a).intersection(b)}`.  The key set and the values
agree with the Python result; iteration order of a Python `set` is
unspecified, here the surviving keys keep `a`'s order. -/
def dict_intersection {V : Type} (a b : Dict V) : Dict V :=
  a.filter (fun kv => containsKey b kv.1)

/-- Source: `QueryWrapper._dict_difference` (query.py):
`{k: a[k] for k in set(a).difference(b)}`. -/
def dict_difference {V : Type} (a b : Dict V) : Dict V :=
  a.filter (fun kv => !containsKey b kv.1)

/-- Source: `QueryWrapper._dict_symmetric_difference` (query.py):
`{k: (a[k] if k in a else b[k]) for k in set(a).symmetric_difference(b)}`. -/
def dict_symmetric_difference {V : Type} (a b : Dict V) : Dict V :=
  a.filter (fun kv => !containsKey b kv.1) ++ b.filter (fun kv => !containsKey a kv.1)

/-- A dialect-tagged query string (namedtuple `QueryString` in query.py). -/
structure QueryString where
  str : String
  lang : String
deriving DecidableEq, Repr

/-- A query expression: either a `QueryString` leaf or a 3-tuple
`(op, left, right)` as accepted by `QueryWrapper.__init__` (query.py). -/
inductive QueryExpr where
  | leaf (q : QueryString)
  | node (op : String) (left right : QueryExpr)
deriving DecidableEq, Repr

/-- The external OrientDB store, modelled as a pure read-query interface:
`run q` stands for `_records_to_dict(_execute_query(q))` in query.py. -/
structure Store (V : Type) where
  run : QueryString → Dict V

/-- Source: the inner function `e` of `QueryWrapper.execute` (query.py).
A leaf is sent to the store; an operator node evaluates both children and
combines the resulting maps with the `_dict_*` helpers.  The operator
strings and their order of testing mirror the source; an unrecognized
operator raises `ValueError('unrecognized operator')`.  (The source's
`len(q) == 3` check is subsumed by the `QueryExpr.node` constructor having
exactly three fields.) -/
def evalQuery {V : Type} (store : Store V) : QueryExpr → Except String (Dict V)
  | .leaf q => .ok (store.run q)
  | .node op l r => do
      let r1 ← evalQuery store l
      let r2 ← evalQuery store r
      if op = "*" || op = "&" then .ok (dict_intersection r1 r2)
      else if op = "+" || op = "|" then .ok (dict_union r1 r2)
      else if op = "-" then .ok (dict_difference r1 r2)
      else if op = "^" then .ok (dict_symmetric_difference r1 r2)
      else .error "unrecognized operator"

/-- The leaf query strings of an expression, in the left-to-right order in
which the evaluation `e` sends them to the store. -/
def leafQueries : QueryExpr → List QueryString
  | .leaf q => [q]
  | .node _ l r => leafQueries l ++ leafQueries r

/-- The mutable state of a `QueryWrapper` (query.py): its query expression,
the node- and edge-record caches, and the two execution flags
(`_executed`, `_edge_executed`). -/
structure QueryWrapper (V : Type) where
  query : QueryExpr
  nodes : Dict V := []
  edges : Dict V := []
  executed : Bool := false
  edge_executed : Bool := false
deriving DecidableEq, Repr

/-- Source: `QueryWrapper.__eq__` (query.py).  Returns `False` when
`self._executed` is false, else compares `set(self._nodes)` with
`set(other._nodes)`.  Note that only the left operand's execution flag is
consulted. -/
def qwEq {V : Type} (a b : QueryWrapper V) : Bool :=
  if !a.executed then false
  else decide (keySet a.nodes = keySet b.nodes)

/-- Source: `QueryWrapper.__or__` (aliased `__add__`) in query.py: builds
the operator node `('|', ...)` and a new wrapper whose cache is the
dictionary union of the operands' caches, constructed with
`executed=True` (the fresh wrapper's edge cache is empty and its edge
flag false, per `__init__`; the `execute` call made by `__init__` is a
no-op because `executed=True` and `edges=False`). -/
def qwOr {V : Type} (a b : QueryWrapper V) : QueryWrapper V :=
  { query := .node "|" a.query b.query
    nodes := dict_union a.nodes b.nodes
    edges := []
    executed := true
    edge_executed := false }

/-- Source: `QueryWrapper.__sub__` (query.py). -/
def qwSub {V : Type} (a b : QueryWrapper V) : QueryWrapper V :=
  { query := .node "-" a.query b.query
    nodes := dict_difference a.nodes b.nodes
    edges := []
    executed := true
    edge_executed := false }

/-- Source: `QueryWrapper.__and__` (aliased `__mul__`) in query.py. -/
def qwAnd {V : Type} (a b : QueryWrapper V) : QueryWrapper V :=
  { query := .node "&" a.query b.query
    nodes := dict_intersection a.nodes b.nodes
    edges := []
    executed := true
    edge_executed := false }

/-- Source: `QueryWrapper.__xor__` (query.py). -/
def qwXor {V : Type} (a b : QueryWrapper V) : QueryWrapper V :=
  { query := .node "^" a.query b.query
    nodes := dict_symmetric_difference a.nodes b.nodes
    edges := []
    executed := true
    edge_executed := false }

/-- Source: `QueryWrapper._edge_query_from_node_rids` (query.py), for a
string `edge_class` (the iterable case of the source is not needed by the
claims).  Returns the induced-subgraph edge query over the given node
identifier list. -/
def edge_query_from_node_rids (node_rids : List String) (edge_class : String) : QueryString :=
  if node_rids.length = 0 then
    { str := "select from DataSource where name = \"uiyth\" ", lang := "sql" }
  else
    let ecs := if edge_class = "" then "" else "\"" ++ edge_class ++ "\""
    let ridStr := String.intercalate "," node_rids
    { str := "select expand($c) let $a = (select expand(oute(" ++ ecs ++ ")) from ["
        ++ ridStr ++ "]),$b = (select expand(ine(" ++ ecs ++ ")) from ["
        ++ ridStr ++ "]),$c = intersect($a,$b)"
      lang := "sql" }

/-- Source: `QueryWrapper.execute` (query.py).  State transformer over the
wrapper; returns the updated wrapper together with the list of queries
sent to the store during the call (instrumentation: the leaf queries of
the expression in evaluation order, plus the derived edge query when the
edge cache is populated).  The `connect` parameter of the source (which
only adds a bookkeeping node in the store) is not modelled. -/
def executeQW {V : Type} (store : Store V) (w : QueryWrapper V) (edges force : Bool) :
    Except String (QueryWrapper V × List QueryString) :=
  if w.executed && !force then
    if w.edge_executed then .ok (w, [])
    else if edges then
      let eq := edge_query_from_node_rids (keysD w.nodes) ""
      .ok ({ w with edges := store.run eq, edge_executed := true }, [eq])
    else .ok (w, [])
  else
    match evalQuery store w.query with
    | .error msg => .error msg
    | .ok nodes =>
        if edges && !w.edge_executed then
          let eq := edge_query_from_node_rids (keysD nodes) ""
          .ok ({ w with nodes := nodes, edges := store.run eq,
                        executed := true, edge_executed := true },
               leafQueries w.query ++ [eq])
        else
          .ok ({ w with nodes := nodes, executed := true }, leafQueries w.query)

/-- Source: `QueryWrapper.execute_edges` (query.py). -/
def executeEdgesQW {V : Type} (store : Store V) (w : QueryWrapper V) (edge_class : String) :
    Except String (QueryWrapper V × List QueryString) :=
  if w.executed then
    if w.edge_executed then .ok (w, [])
    else
      let eq := edge_query_from_node_rids (keysD w.nodes) edge_class
      .ok ({ w with edges := store.run eq, edge_executed := true }, [eq])
  else executeQW store w true false

/-- Normalize one bound of a Python slice `l[a:b]` for a list of length
`len`: negative indices count from the end, and both ends are clamped. -/
def pySliceIdx (len : Nat) (i : Int) : Nat :=
  if i < 0 then (i + len).toNat else min i.toNat len

/-- Python list slicing `l[a:b]` with integer bounds. -/
def pySlice {α : Type} (l : List α) (a b : Int) : List α :=
  (l.take (pySliceIdx l.length b)).drop (pySliceIdx l.length a)

/-- Source: `QueryWrapper._gen_traversal` (query.py).  For a stage list of
length `n` the function populates the ordered dict `q` with keys
`$q0, $q1, ..., $qn`: `$q0` is the depth-0 identity query over the current
node identifiers and `$qt` follows stage `t` from `$q(t-1)`. -/
def gen_traversal_qkeys (n : Nat) : List String :=
  (List.range (n + 1)).map (fun t => "$q" ++ toString t)

/-- Source: `QueryWrapper._gen_traversal` (query.py).  The generated query
ends in `unionall(...)` over `list(q.keys())[min_depth:max_depth]`, where
`min_depth` defaults to `0` and `max_depth` defaults to `len(args) + 1`
when the keyword arguments are not supplied. -/
def gen_traversal_union_vars (n : Nat) (min_depth max_depth : Option Int) : List String :=
  pySlice (gen_traversal_qkeys n) (min_depth.getD 0) (max_depth.getD (n + 1))

/-- The attribute values appearing in table rows and change-sets: Python
strings, numbers, `None` and `NaN` (only the value shapes the diff/apply
engine distinguishes). -/
inductive Value where
  | str (s : String)
  | num (n : Int)
  | null
  | nan
deriving DecidableEq, Repr

/-- Python `str(val).lower()` restricted to the membership tests
`in ('none', 'nan')` performed by apply_diff.py. -/
def Value.pyStrLower : Value → String
  | .str s => s.toLower
  | .num n => toString n
  | .null => "none"
  | .nan => "nan"

/-- Source: the test `str(val).lower() in ('none', 'nan')` (apply_diff.py),
deciding whether a field value is emitted as an explicit `NULL`. -/
def Value.isNullLike (v : Value) : Bool :=
  v.pyStrLower = "none" || v.pyStrLower = "nan"

/-- Python `val.__repr__()` as used when rendering a `SET` clause. -/
def Value.pyRepr : Value → String
  | .str s => "'" ++ s ++ "'"
  | .num n => toString n
  | .null => "None"
  | .nan => "nan"

/-- Python `str(val)` as used when splicing edge endpoints into a command. -/
def Value.pyStr : Value → String
  | .str s => s
  | .num n => toString n
  | .null => "None"
  | .nan => "nan"

/-- One table row: an attribute map (Python `Series.to_dict()`). -/
abbrev Row : Type := Dict Value

/-- A tabular snapshot: rows keyed by the row identifier (the DataFrame
index), in order. -/
structure Table where
  rows : List (String × Row)
deriving DecidableEq, Repr

/-- Python `t.ix[id]` (row lookup by index; `none` = `KeyError`). -/
def tableLookup (t : Table) (id : String) : Except String Row :=
  match lookupD t.rows id with
  | some r => .ok r
  | none => .error "KeyError"

/-- Python `t.ix[id][col]` (cell lookup; `none` = `KeyError`). -/
def cellLookup (t : Table) (id col : String) : Except String Value := do
  let r ← tableLookup t id
  match lookupD r col with
  | some v => .ok v
  | none => .error "KeyError"

/-- A change-set `{mod, del, add}` as produced by `take_diff` (diff.py)
and consumed by apply_diff.py.  `del` values are Python `None`. -/
structure ChangeSet where
  mod : Dict Row
  del : Dict Unit
  add : Dict Row
deriving DecidableEq, Repr

/-- The diff grid returned by the external daff library
(`daff.Coopy.diff(...).data` in diff.py): a list of rows of string cells,
row cell 0 being the operation tag and cell 1 the row identifier. -/
abbrev Grid : Type := List (List String)

/-- Character-level worker for Python `str.split(sep)` with a nonempty
separator: scan left to right, breaking at each non-overlapping occurrence
of `sep`.  The fuel argument (initially the input length) only makes the
recursion structural; it never runs out. -/
def splitGo (sep : List Char) : Nat → List Char → List Char → List (List Char)
  | _, [], acc => [acc.reverse]
  | 0, l, acc => [acc.reverse ++ l]
  | fuel + 1, c :: cs, acc =>
      if sep.isPrefixOf (c :: cs) then
        acc.reverse :: splitGo sep fuel ((c :: cs).drop sep.length) []
      else
        splitGo sep fuel cs (c :: acc)

/-- Python `s.split(sep)` for a nonempty separator. -/
def pySplit (s sep : String) : List String :=
  if sep.data.isEmpty then [s]
  else (splitGo sep.data s.data.length s.data []).map (fun cs => String.mk cs)

/-- Python `sep.join(parts)`. -/
def pyJoin (sep : String) : List String → String
  | [] => ""
  | [x] => x
  | x :: y :: xs => x ++ sep ++ pyJoin sep (y :: xs)

/-- Python `pat in s` for a nonempty pattern: `s.split(pat)` has at least
two parts exactly when `pat` occurs in `s`. -/
def containsSub (s pat : String) : Bool :=
  (pySplit s pat).length ≥ 2

/-- The greedy-regex split `re.search('(.+)op(.+)$', id).groups()` used by
the rename branch of `take_diff` (diff.py): the first (greedy) group takes
the longest prefix that still leaves the separator `op` followed by a
nonempty remainder; `none` models `re.search` returning `None`. -/
def greedyArrow (parts : List String) (op : String) : Option (String × String) :=
  (List.range parts.length).reverse.findSome? (fun i =>
    if i = 0 then none
    else
      let pre := pyJoin op (parts.take i)
      let suf := pyJoin op (parts.drop i)
      if 0 < pre.length && 0 < suf.length then some (pre, suf) else none)

/-- The three accumulators of the grid-processing loop in `take_diff`. -/
structure DiffState where
  mod : Dict Row
  del : Dict Unit
  add : Dict Row
deriving DecidableEq, Repr

/-- Fold with early error exit, modelling a Python `for` loop whose body
may raise. -/
def foldE {σ α : Type} (f : σ → α → Except String σ) : σ → List α → Except String σ
  | s, [] => .ok s
  | s, x :: xs => do foldE f (← f s x) xs

/-- Python `if id not in mod_dict: mod_dict[id] = dict()`. -/
def ensureKey (m : Dict Row) (id : String) : Dict Row :=
  if containsKey m id then m else dictSet m id []

/-- `mod_dict[id][col] = v` after `ensureKey`. -/
def modSet (m : Dict Row) (id col : String) (v : Value) : Dict Row :=
  dictSet m id (dictSet ((lookupD m id).getD []) col v)

/-- Source: the body of the row loop `for i in xrange(start_row, len(df))`
of `take_diff` (diff.py).  `colnames` is the grid row at `colname_row`;
`colEdit` is `some` of grid row 0 exactly when `df.ix[0, 0] == '!'` (the
column-wide edit header, in which case `edit_row = 0`).  Cells of a short
grid row read as `''` (a rectangular pandas DataFrame pads with NaN; the
claims only exercise rectangular grids).  The unconditional
`mod_dict[id] = dict()` initializations of the source are preserved via
`ensureKey`. -/
def takeDiffRow (new : Table) (colnames : List String) (colEdit : Option (List String))
    (full_replace : Bool) (st : DiffState) (row : List String) : Except String DiffState := do
  let op := row.getD 0 ""
  let id := row.getD 1 ""
  if op = "..." || op = "" then .ok st
  else do
    let st ←
      if op = "+++" then do
        let r ← tableLookup new id
        .ok { st with add := dictSet st.add id r }
      else if op = "---" then
        .ok { st with del := dictSet st.del id () }
      else if op = "+" then
        if full_replace then do
          let r ← tableLookup new id
          .ok { st with mod := dictSet st.mod id r }
        else .ok st
      else if containsSub op "->" then
        if containsSub id op then
          match greedyArrow (pySplit id op) op with
          | some (oldId, newId) => do
              let r ← tableLookup new newId
              .ok { st with del := dictSet st.del oldId ()
                            add := dictSet st.add newId r }
          | none => .error "AttributeError"
        else
          if full_replace then do
            let r ← tableLookup new id
            .ok { st with mod := dictSet st.mod id r }
          else
            foldE (fun s p =>
                if containsSub p.1 "->" then do
                  let v ← cellLookup new id p.2
                  .ok { s with mod := modSet s.mod id p.2 v }
                else .ok s)
              { st with mod := ensureKey st.mod id }
              ((row.drop 1).zip (colnames.drop 1))
      else .ok st
    match colEdit with
    | none => .ok st
    | some editRow =>
        foldE (fun s p =>
            let s := { s with mod := ensureKey s.mod id }
            if containsSub p.1 "+++" then do
              let v ← cellLookup new id p.2
              .ok { s with mod := modSet s.mod id p.2 v }
            else if containsSub p.1 "---" then
              .ok { s with mod := modSet s.mod id p.2 Value.null }
            else .ok s)
          st ((editRow.drop 1).zip (colnames.drop 1))

/-- Source: `take_diff` (diff.py), for a precomputed daff grid `df` (the
call to the external daff library is abstracted into the grid argument;
the edge-table reindexing of the `diff_type == 'edge'` branch is factored
into `diff_edges` below).  The `assert` of unique ids raises
`AssertionError`; `old` is otherwise only used through index casts, which
are the identity on string indices. -/
def take_diff (old new : Table) (df : Grid) (full_replace : Bool) : Except String ChangeSet := do
  if (old.rows.map Prod.fst).Nodup ∧ (new.rows.map Prod.fst).Nodup then
    let topCell := (df.getD 0 []).getD 0 ""
    let colnameRow := if topCell = "@@" then 0 else 1
    let startRow : Nat := if topCell = "@@" then 1 else 2
    let colnames := df.getD colnameRow []
    let colEdit : Option (List String) := if topCell = "!" then some (df.getD 0 []) else none
    let st ← foldE (takeDiffRow new colnames colEdit full_replace)
      { mod := [], del := [], add := [] } (df.drop startRow)
    .ok { mod := st.mod, del := st.del, add := st.add }
  else .error "AssertionError"

/-- Source: `diff_nodes` (diff.py); `daffN` stands for the external
`daff.Coopy.diff` on the two node tables. -/
def diff_nodes (daffN : Table → Table → Grid) (old new : Table) (full_replace : Bool) :
    Except String ChangeSet :=
  take_diff old new (daffN old new) full_replace

/-- The composite edge row key `out + ' ' + class + ' ' + in` synthesized
by the `diff_type == 'edge'` branch of `take_diff` (diff.py); a missing
column reads as the empty string. -/
def edgeKeyOf (r : Row) : String :=
  ((lookupD r "out").getD Value.null).pyStr ++ " " ++
    ((lookupD r "class").getD Value.null).pyStr ++ " " ++
    ((lookupD r "in").getD Value.null).pyStr

/-- Reindex an edge table by the composite key (diff.py, edge branch). -/
def reindexEdges (t : Table) : Table :=
  { rows := t.rows.map (fun kr => (edgeKeyOf kr.2, kr.2)) }

/-- Pandas `DataFrame.drop_duplicates()`: keep the first occurrence of
each fully duplicated attribute row. -/
def drop_duplicates (rows : List (String × Row)) : List (String × Row) :=
  rows.foldl (fun acc kr => if acc.any (fun kr' => kr'.2 = kr.2) then acc else acc ++ [kr]) []

/-- Source: `diff_edges` (diff.py): reindex both tables by the composite
edge key, drop duplicate rows of `new`, then run the grid diff. -/
def diff_edges (daffE : Table → Table → Grid) (old new : Table) (full_replace : Bool) :
    Except String ChangeSet :=
  let oldR := reindexEdges old
  let newR : Table := { rows := drop_duplicates (reindexEdges new).rows }
  take_diff oldR newR (daffE oldR newR) full_replace

/-- Pandas `Series.isin(del_nodes)` on an attribute value. -/
def valueIn (v : Option Value) (l : List String) : Bool :=
  match v with
  | some (.str s) => l.contains s
  | _ => false

/-- Source: `QueryWrapper._remove_edges_by_node` (query.py): keep the rows
whose `in` and `out` endpoints are both outside `del_nodes`. -/
def remove_edges_by_node (df : Table) (del_nodes : List String) : Table :=
  { rows := df.rows.filter (fun kr =>
      !valueIn (lookupD kr.2 "in") del_nodes && !valueIn (lookupD kr.2 "out") del_nodes) }

/-- Worker for `chunks` below; the fuel argument (initially the input
length) only makes the recursion structural and never runs out. -/
def chunksGo {α : Type} (n : Nat) : Nat → List α → List (List α)
  | _, [] => []
  | 0, l => [l]
  | fuel + 1, x :: xs => (x :: xs).take n :: chunksGo n fuel ((x :: xs).drop n)

/-- Source: `chunks` (utils.py): split an iterable into consecutive chunks
of size `n` (the last may be shorter).  For `n = 0` the Python generator
yields nothing (islice of 0 is empty, so the loop breaks immediately). -/
def chunks {α : Type} (n : Nat) (l : List α) : List (List α) :=
  if n = 0 then [] else chunksGo n l.length l

/-- Source: `is_rid` (utils.py): the regex `^\#\d+\:\d+$`, i.e. `#`, one
or more digits, `:`, one or more digits, and nothing else. -/
def is_rid (s : String) : Bool :=
  match s.toList with
  | '#' :: rest =>
      let ds := rest.takeWhile Char.isDigit
      let rest2 := rest.dropWhile Char.isDigit
      (!ds.isEmpty) &&
        (match rest2 with
         | ':' :: ds2 => !ds2.isEmpty && ds2.all Char.isDigit
         | _ => false)
  | _ => false

/-- One mutation statement of a transaction script, as appended to
`cmd_list` by the apply helpers (apply_diff.py).  `createVertex` and
`createEdge` additionally record the change-set key the created record's
RID is associated with in the returned map (`rid_map[k]` /
`edge_rid_list`); `deleteEdgeStmt` records the composite change-set key
alongside its three components. -/
inductive Stmt where
  | updateNode (rid : String) (setFields : List (String × String))
  | createVertex (key : String) (cls : String) (setFields : List (String × String))
  | deleteVertex (rid : String)
  | createEdge (key : String) (cls : String) (outNode : String) (inNode : String)
  | deleteEdgeStmt (key : String) (outNode : String) (cls : String) (inNode : String)
deriving DecidableEq, Repr

/-- The change-set key an individual statement processes. -/
def stmtKey : Stmt → String
  | .updateNode rid _ => rid
  | .createVertex k _ _ => k
  | .deleteVertex rid => rid
  | .createEdge k _ _ _ => k
  | .deleteEdgeStmt k _ _ _ => k

/-- The three phases of an apply call. -/
inductive Phase where
  | mod
  | add
  | del
deriving DecidableEq, Repr

/-- Phases in commit order. -/
def phaseRank : Phase → Nat
  | .mod => 0
  | .add => 1
  | .del => 2

/-- Map with early error exit, modelling a Python `for` loop that builds a
list and may raise. -/
def collectE {α β : Type} (f : α → Except String β) : List α → Except String (List β)
  | [] => .ok []
  | x :: xs => do
      let y ← f x
      let ys ← collectE f xs
      .ok (y :: ys)

/-- The `SET` clause of an `UPDATE` statement built by `_mod_nodes`
(apply_diff.py): `field = repr(val)`, or `field = NULL` for
null/NaN-valued fields. -/
def modNodeSet (v : Row) : List (String × String) :=
  v.map (fun fv => (fv.1, if fv.2.isNullLike then "NULL" else fv.2.pyRepr))

/-- Source: `_mod_nodes` (apply_diff.py): chunk the entries, check that
every key is a RID (else `ValueError('identifiers must be RIDs')`), and
emit one `UPDATE` statement per entry; each chunk is one transaction
script.  The store round trip and the returned rid list are elided: the
result is the list of scripts sent. -/
def mod_nodes (d_mod : Dict Row) (N : Nat) : Except String (List (List Stmt)) :=
  collectE (fun chunk =>
      collectE (fun kv =>
          if is_rid kv.1 then .ok (Stmt.updateNode kv.1 (modNodeSet kv.2))
          else .error "identifiers must be RIDs")
        chunk)
    (chunks N d_mod)

/-- The external store client, reduced to the piece of state the apply
engine reads: the class-name list returned by
`client.command("select classes.name from 0:1")`. -/
structure Client where
  classList : List String
deriving Repr

/-- Source: the field loop of `_add_nodes` (apply_diff.py), threading the
function-local `node_class` (which persists across entries of the
enclosing loops).  A `class` field must name a registered class (the
`assert` raises otherwise); null/NaN fields are skipped; other fields are
rendered into the `SET` clause. -/
def addNodeFields (classList : List String) :
    List (String × Value) → Option String → List (String × String) →
      Except String (Option String × List (String × String))
  | [], nc, acc => .ok (nc, acc)
  | (field, val) :: rest, nc, acc =>
      if field = "class" then
        match val with
        | .str c =>
            if classList.contains c then addNodeFields classList rest (some c) acc
            else .error "Assign new nodes to an existing class"
        | _ => .error "Assign new nodes to an existing class"
      else if val.isNullLike then addNodeFields classList rest nc acc
      else addNodeFields classList rest nc (acc ++ [(field, val.pyRepr)])

/-- One entry of `_add_nodes`: build the `CREATE VERTEX` statement.  If no
`class` field was ever seen, `node_class` is unbound and Python raises
`NameError`. -/
def addNodeStmt (classList : List String) (nc : Option String) (k : String) (v : Row) :
    Except String (Option String × Stmt) := do
  let (nc', fields) ← addNodeFields classList v nc []
  match nc' with
  | some cls => .ok (some cls, Stmt.createVertex k cls fields)
  | none => .error "NameError: node_class"

/-- One chunk of `_add_nodes`. -/
def addNodeChunk (classList : List String) (nc : Option String) :
    List (String × Row) → Except String (Option String × List Stmt)
  | [] => .ok (nc, [])
  | (k, v) :: rest => do
      let (nc', stmt) ← addNodeStmt classList nc k v
      let (nc'', stmts) ← addNodeChunk classList nc' rest
      .ok (nc'', stmt :: stmts)

/-- All chunks of `_add_nodes`, threading `node_class` across chunks. -/
def addNodeChunks (classList : List String) (nc : Option String) :
    List (List (String × Row)) → Except String (List (List Stmt))
  | [] => .ok []
  | c :: cs => do
      let (nc', stmts) ← addNodeChunk classList nc c
      let rest ← addNodeChunks classList nc' cs
      .ok (stmts :: rest)

/-- Source: `_add_nodes` (apply_diff.py); one `CREATE VERTEX` statement
per entry, one script per chunk.  Note that no RID check is performed on
the keys. -/
def add_nodes (client : Client) (d_add : Dict Row) (N : Nat) :
    Except String (List (List Stmt)) :=
  addNodeChunks client.classList none (chunks N d_add)

/-- Source: `_del_nodes` (apply_diff.py). -/
def del_nodes (d_del : Dict Unit) (N : Nat) : Except String (List (List Stmt)) :=
  collectE (fun chunk =>
      collectE (fun kv =>
          if is_rid kv.1 then .ok (Stmt.deleteVertex kv.1)
          else .error "identifiers must be RIDs")
        chunk)
    (chunks N d_del)

/-- Source: `_del_edges` (apply_diff.py): each key splits as
`out_node, edge_class, in_node = k.split(' ')` (a non-3-way split raises
`ValueError` by tuple unpacking), and both endpoints must be RIDs. -/
def del_edges (d_del : Dict Unit) (N : Nat) : Except String (List (List Stmt)) :=
  collectE (fun chunk =>
      collectE (fun kv =>
          match pySplit kv.1 " " with
          | [outNode, cls, inNode] =>
              if is_rid inNode && is_rid outNode then
                .ok (Stmt.deleteEdgeStmt kv.1 outNode cls inNode)
              else .error "identifiers must be RIDs"
          | _ => .error "ValueError: unpack")
        chunk)
    (chunks N d_del)

/-- The function-local variables of `_add_edges` (apply_diff.py) that
persist across entries: `edge_class`, `in_node`, `out_node`. -/
structure EdgeVars where
  cls : Option String
  inN : Option String
  outN : Option String
deriving DecidableEq, Repr

/-- Source: the field loop of `_add_edges` (apply_diff.py): `class` is
checked against the registered classes, `in`/`out` record the endpoints,
all other fields are ignored. -/
def addEdgeFields (classList : List String) :
    List (String × Value) → EdgeVars → Except String EdgeVars
  | [], s => .ok s
  | (field, val) :: rest, s =>
      if field = "class" then
        match val with
        | .str c =>
            if classList.contains c then addEdgeFields classList rest { s with cls := some c }
            else .error "Assign new edges to an existing class"
        | _ => .error "Assign new edges to an existing class"
      else if field = "in" then addEdgeFields classList rest { s with inN := some val.pyStr }
      else if field = "out" then addEdgeFields classList rest { s with outN := some val.pyStr }
      else addEdgeFields classList rest s

/-- One entry of `_add_edges`: build the `CREATE EDGE` statement; an
unbound `edge_class`/`in_node`/`out_node` raises `NameError`. -/
def addEdgeStmt (classList : List String) (s : EdgeVars) (k : String) (v : Row) :
    Except String (EdgeVars × Stmt) := do
  let s' ← addEdgeFields classList v s
  match s'.cls, s'.outN, s'.inN with
  | some cls, some outNode, some inNode =>
      .ok (s', Stmt.createEdge k cls outNode inNode)
  | _, _, _ => .error "NameError: edge vars"

/-- One chunk of `_add_edges`. -/
def addEdgeChunk (classList : List String) (s : EdgeVars) :
    List (String × Row) → Except String (EdgeVars × List Stmt)
  | [] => .ok (s, [])
  | (k, v) :: rest => do
      let (s', stmt) ← addEdgeStmt classList s k v
      let (s'', stmts) ← addEdgeChunk classList s' rest
      .ok (s'', stmt :: stmts)

/-- All chunks of `_add_edges`. -/
def addEdgeChunks (classList : List String) (s : EdgeVars) :
    List (List (String × Row)) → Except String (List (List Stmt))
  | [] => .ok []
  | c :: cs => do
      let (s', stmts) ← addEdgeChunk classList s c
      let rest ← addEdgeChunks classList s' cs
      .ok (stmts :: rest)

/-- Source: `_add_edges` (apply_diff.py).  No RID check on the keys. -/
def add_edges (client : Client) (d_add : Dict Row) (N : Nat) :
    Except String (List (List Stmt)) :=
  addEdgeChunks client.classList { cls := none, inN := none, outN := none } (chunks N d_add)

/-- The filtered mod map of `apply_node_diff` (apply_diff.py):
`{k: v for k, v in d['mod'].items() if (k not in d['add']) and (k not in d['del'])}`. -/
def nodeModFiltered (d : ChangeSet) : Dict Row :=
  d.mod.filter (fun kv => !containsKey d.add kv.1 && !containsKey d.del kv.1)

/-- The filtered add map of `apply_node_diff` (apply_diff.py):
`{k: v for k, v in d['add'].items() if k not in d['del']}`. -/
def nodeAddFiltered (d : ChangeSet) : Dict Row :=
  d.add.filter (fun kv => !containsKey d.del kv.1)

/-- The filtered add map of `apply_edge_diff` (apply_diff.py). -/
def edgeAddFiltered (d : ChangeSet) : Dict Row :=
  d.add.filter (fun kv => !containsKey d.del kv.1)

/-- The mod phase of `apply_node_diff` (apply_diff.py): skipped entirely
(`if d['mod']:`) when the map is empty. -/
def nodeModScripts (d : ChangeSet) : Except String (List (List Stmt)) :=
  if d.mod.isEmpty then pure [] else mod_nodes (nodeModFiltered d) 1000

/-- The add phase of `apply_node_diff` (apply_diff.py). -/
def nodeAddScripts (client : Client) (d : ChangeSet) : Except String (List (List Stmt)) :=
  if d.add.isEmpty then pure [] else add_nodes client (nodeAddFiltered d) 1000

/-- The del phase of `apply_node_diff` (apply_diff.py). -/
def nodeDelScripts (d : ChangeSet) : Except String (List (List Stmt)) :=
  if d.del.isEmpty then pure [] else del_nodes d.del 1000

/-- Source: `apply_node_diff` (apply_diff.py): mods, then adds, then dels,
with chunk size `N = 1000`; each phase is skipped entirely when its map is
empty (Python dict truthiness).  The result is the ordered list of
transaction scripts sent, tagged with their phase; the rid bookkeeping of
the source is elided. -/
def apply_node_diff (client : Client) (d : ChangeSet) :
    Except String (List (Phase × List Stmt)) := do
  let modScripts ← nodeModScripts d
  let addScripts ← nodeAddScripts client d
  let delScripts ← nodeDelScripts d
  .ok (modScripts.map (fun s => (Phase.mod, s)) ++
       addScripts.map (fun s => (Phase.add, s)) ++
       delScripts.map (fun s => (Phase.del, s)))

/-- The add phase of `apply_edge_diff` (apply_diff.py). -/
def edgeAddScripts (client : Client) (d : ChangeSet) : Except String (List (List Stmt)) :=
  if d.add.isEmpty then pure [] else add_edges client (edgeAddFiltered d) 200

/-- The del phase of `apply_edge_diff` (apply_diff.py). -/
def edgeDelScripts (d : ChangeSet) : Except String (List (List Stmt)) :=
  if d.del.isEmpty then pure [] else del_edges d.del 200

/-- Source: `apply_edge_diff` (apply_diff.py): adds then dels, chunk size
`N = 200`; the `mod` map of the change-set is never read. -/
def apply_edge_diff (client : Client) (d : ChangeSet) :
    Except String (List (Phase × List Stmt)) := do
  let addScripts ← edgeAddScripts client d
  let delScripts ← edgeDelScripts d
  .ok (addScripts.map (fun s => (Phase.add, s)) ++
       delScripts.map (fun s => (Phase.del, s)))

/-- Source: `QueryWrapper._diff` (query.py) with the default empty
`node_map`: diff the node tables, filter both edge tables by the node
diff's del keys, diff the filtered edge tables, then apply both diffs.
The `get_as()` snapshot is passed in as the two `old` tables; the result
collects both change-sets and both script traces (the source returns only
the node rid list). -/
def QW_diff (daffN daffE : Table → Table → Grid) (client : Client)
    (old_nodes new_nodes old_edges new_edges : Table) (full_replace : Bool) :
    Except String (ChangeSet × ChangeSet × List (Phase × List Stmt) × List (Phase × List Stmt)) := do
  let d_n ← diff_nodes daffN old_nodes new_nodes full_replace
  let del_nodes := keysD d_n.del
  let old_f := remove_edges_by_node old_edges del_nodes
  let new_f := remove_edges_by_node new_edges del_nodes
  let d_e ← diff_edges daffE old_f new_f full_replace
  let t_n ← apply_node_diff client d_n
  let t_e ← apply_edge_diff client d_e
  .ok (d_n, d_e, t_n, t_e)

/-! ### Concrete fixtures used by witnesses and counterexamples -/

/-- A store used for concrete evaluations: the query tagged `"qa"` returns
two records, every other query one record. -/
def wStore : Store Unit :=
  { run := fun q =>
      if q.str = "qa" then [("#1:1", ()), ("#2:2", ())] else [("#2:2", ()), ("#3:3", ())] }

/-- Leaf query returning `[#1:1, #2:2]` under `wStore`. -/
def wLeafA : QueryExpr := .leaf { str := "qa", lang := "sql" }

/-- Leaf query returning `[#2:2, #3:3]` under `wStore`. -/
def wLeafB : QueryExpr := .leaf { str := "qb", lang := "sql" }

/-- An executed wrapper with an empty node cache (the state of
`QueryWrapper.empty_query`). -/
def cexEqA : QueryWrapper Unit :=
  { query := .leaf { str := "select from #-1:0", lang := "sql" }
    nodes := [], edges := [], executed := true, edge_executed := false }

/-- An unexecuted wrapper in its initial state (`__init__` with
`execute=False`): empty caches, both flags false. -/
def cexEqB : QueryWrapper Unit :=
  { query := .leaf { str := "select from Neuron", lang := "sql" } }

/-- Executed wrappers over concrete caches, for the set-algebra witness. -/
def wQWa : QueryWrapper Unit :=
  { query := wLeafA, nodes := [("#1:1", ()), ("#2:2", ())], executed := true }

/-- Second operand for the set-algebra witness. -/
def wQWb : QueryWrapper Unit :=
  { query := wLeafB, nodes := [("#2:2", ()), ("#3:3", ())], executed := true }

/-- Third operand for the set-algebra witness. -/
def wQWc : QueryWrapper Unit :=
  { query := wLeafB, nodes := [("#3:3", ())], executed := true }

/-- A node-executed wrapper whose edge cache is still empty. -/
def cexExecW : QueryWrapper Unit :=
  { query := .leaf { str := "q", lang := "sql" }
    nodes := [("#1:0", ())], edges := [], executed := true, edge_executed := false }

/-- A client whose store registers two classes. -/
def cexClient : Client := { classList := ["Neuron", "SendsTo"] }

/-- An edge change-set containing only a modification entry. -/
def cexEdgeMod : ChangeSet :=
  { mod := [("#1:1 SendsTo #2:2", [("N", Value.num 3)])], del := [], add := [] }

/-- A node change-set whose `mod` key also occurs in `add` and is not a
RID. -/
def cexModAdd : ChangeSet :=
  { mod := [("w", [("x", Value.num 1)])]
    del := []
    add := [("w", [("class", Value.str "Neuron")])] }

/-- A node change-set with a non-RID `del` key, for the fail-fast witness. -/
def wBadDel : ChangeSet :=
  { mod := [], del := [("v9", ())], add := [] }

/-- A node change-set exercising all three phases with overlapping keys. -/
def wOverlap : ChangeSet :=
  { mod := [("#1:1", [("a", Value.num 1)]), ("#3:3", [("b", Value.num 2)])]
    del := [("#2:2", ()), ("#3:3", ())]
    add := [("v1", [("class", Value.str "Neuron")]), ("#2:2", [("class", Value.str "Neuron")])] }

/-- An edge change-set exercising add and del with an overlapping key. -/
def wOverlapE : ChangeSet :=
  { mod := []
    del := [("#1:1 SendsTo #2:2", ())]
    add := [("e1", [("class", Value.str "SendsTo"), ("out", Value.str "#1:1"),
                    ("in", Value.str "#3:3")]),
            ("#1:1 SendsTo #2:2", [("class", Value.str "SendsTo"),
                                   ("out", Value.str "#1:1"), ("in", Value.str "#2:2")])] }

/-- The old node table of the rename witness: one row with id `w1`. -/
def wOldT : Table := { rows := [("w1", [("a", Value.num 1)])] }

/-- The new node table of the rename witness: the same row renamed `z1`. -/
def wNewT : Table := { rows := [("z1", [("a", Value.num 1)])] }

/-- The daff grid for the `w1` to `z1` rename (modelled output of the
external daff library, per the output format documented in `take_diff`). -/
def wRenameGrid : Grid := [["@@", "id", "a"], ["->", "w1->z1", "1"]]

/-- An empty table. -/
def wEmptyT : Table := { rows := [] }

/-- A daff grid with a header row only (diff of two identical tables). -/
def wHeaderGrid : Grid := [["@@", "id"]]

/-- Every `class` field of a row is a registered class name and at least
one `class` field exists (the condition under which `_add_nodes` builds a
create statement without consulting `is_rid`). -/
def rowClassOK (cl : List String) (v : Row) : Prop :=
  (∃ p ∈ v, p.1 = "class") ∧
    (∀ p ∈ v, p.1 = "class" → ∃ c, p.2 = Value.str c ∧ cl.contains c = true)

/-- Whether an edge del key splits into `out class in` with both endpoints
well-formed RIDs — the success condition of `_del_edges` per entry. -/
def edgeDelKeyOK (k : String) : Bool :=
  match pySplit k " " with
  | [outNode, _, inNode] => is_rid inNode && is_rid outNode
  | _ => false

/-- The change-set keys processed by the statements of phase `p` in an
apply trace. -/
def phaseKeys (trace : List (Phase × List Stmt)) (p : Phase) : List String :=
  (((trace.filter (fun ps => ps.1 = p)).map Prod.snd).flatten).map stmtKey

/-! ### Lemmas about the dictionary operations -/

@[simp] theorem lookupD_nil {V : Type} (k : String) : lookupD ([] : Dict V) k = none := rfl

@[simp] theorem lookupD_cons {V : Type} (k' : String) (v : V) (d : Dict V) (k : String) :
    lookupD ((k', v) :: d) k = if k' = k then some v else lookupD d k := rfl

theorem lookupD_append {V : Type} (a b : Dict V) (k : String) :
    lookupD (a ++ b) k = (lookupD a k).orElse (fun _ => lookupD b k) := by
  induction a with
  | nil => simp [lookupD, Option.orElse]
  | cons kv d ih =>
      obtain ⟨k', v⟩ := kv
      by_cases h : k' = k <;> simp [lookupD, h, ih, Option.orElse]

theorem lookupD_isSome_of_mem {V : Type} {d : Dict V} {k : String} {v : V}
    (h : (k, v) ∈ d) : (lookupD d k).isSome := by
  induction d with
  | nil => cases h
  | cons kv d ih =>
      obtain ⟨k', v'⟩ := kv
      rcases List.mem_cons.mp h with h' | h'
      · cases h'; simp [lookupD]
      · by_cases hk : k' = k <;> simp [lookupD, hk, ih h']

theorem mem_keysD_iff_containsKey {V : Type} (d : Dict V) (k : String) :
    k ∈ keysD d ↔ containsKey d k = true := by
  induction d with
  | nil => simp [keysD, containsKey]
  | cons kv d ih =>
      obtain ⟨k', v⟩ := kv
      by_cases h : k' = k
      · subst h; simp [keysD, containsKey, lookupD]
      · simp only [keysD, List.map_cons, List.mem_cons]
        constructor
        · rintro (h' | h')
          · exact absurd h'.symm h
          · simpa [containsKey, lookupD, h] using (ih.mp (by simpa [keysD] using h'))
        · intro h'
          simp only [containsKey, lookupD_cons, h] at h'
          exact Or.inr (by simpa [keysD] using ih.mpr h')

theorem mem_keySet_iff_containsKey {V : Type} (d : Dict V) (k : String) :
    k ∈ keySet d ↔ containsKey d k = true := by
  rw [keySet, List.mem_toFinset]
  exact mem_keysD_iff_containsKey d k

theorem lookupD_union_map {V : Type} (a b : Dict V) (k : String) :
    lookupD (a.map (fun kv => (kv.1, ((lookupD b kv.1).getD kv.2)))) k =
      (lookupD a k).map (fun v => (lookupD b k).getD v) := by
  induction a with
  | nil => simp
  | cons kv d ih =>
      obtain ⟨k', v⟩ := kv
      by_cases h : k' = k <;> simp [lookupD, h, ih]

theorem lookupD_filter_not_mem {V : Type} (a b : Dict V) (k : String) :
    lookupD (a.filter (fun kv => !containsKey b kv.1)) k =
      if containsKey b k then none else lookupD a k := by
  induction a with
  | nil => simp
  | cons kv d ih =>
      obtain ⟨k', v⟩ := kv
      by_cases h : k' = k
      · subst h
        by_cases hp : containsKey b k' <;> simp [List.filter, lookupD, hp, ih]
      · by_cases hp : containsKey b k' <;> simp [List.filter, lookupD, h, hp, ih]

theorem lookupD_filter_mem {V : Type} (a b : Dict V) (k : String) :
    lookupD (a.filter (fun kv => containsKey b kv.1)) k =
      if containsKey b k then lookupD a k else none := by
  induction a with
  | nil => simp
  | cons kv d ih =>
      obtain ⟨k', v⟩ := kv
      by_cases h : k' = k
      · subst h
        by_cases hp : containsKey b k' <;> simp [List.filter, lookupD, hp, ih]
      · by_cases hp : containsKey b k' <;> simp [List.filter, lookupD, h, hp, ih]

theorem lookupD_dict_union {V : Type} (a b : Dict V) (k : String) :
    lookupD (dict_union a b) k = (lookupD b k).orElse (fun _ => lookupD a k) := by
  rw [dict_union, lookupD_append, lookupD_union_map, lookupD_filter_not_mem]
  cases hb : lookupD b k <;> cases ha : lookupD a k <;>
    simp [containsKey, hb, ha, Option.orElse]

theorem lookupD_dict_intersection {V : Type} (a b : Dict V) (k : String) :
    lookupD (dict_intersection a b) k =
      if containsKey b k then lookupD a k else none := by
  rw [dict_intersection, lookupD_filter_mem]

theorem lookupD_dict_difference {V : Type} (a b : Dict V) (k : String) :
    lookupD (dict_difference a b) k =
      if containsKey b k then none else lookupD a k := by
  rw [dict_difference, lookupD_filter_not_mem]

theorem lookupD_dict_symmetric_difference {V : Type} (a b : Dict V) (k : String) :
    lookupD (dict_symmetric_difference a b) k =
      if containsKey b k then (if containsKey a k then none else lookupD b k)
      else lookupD a k := by
  rw [dict_symmetric_difference, lookupD_append, lookupD_filter_not_mem,
    lookupD_filter_not_mem]
  by_cases hb : containsKey b k <;> by_cases ha : containsKey a k <;>
    simp_all [containsKey, Option.orElse] <;>
    cases h : lookupD a k <;> simp_all

theorem containsKey_dict_union {V : Type} (a b : Dict V) (k : String) :
    containsKey (dict_union a b) k = (containsKey a k || containsKey b k) := by
  rw [containsKey, lookupD_dict_union]
  cases ha : lookupD a k <;> cases hb : lookupD b k <;>
    simp [containsKey, ha, hb, Option.orElse]

theorem containsKey_dict_intersection {V : Type} (a b : Dict V) (k : String) :
    containsKey (dict_intersection a b) k = (containsKey a k && containsKey b k) := by
  rw [containsKey, lookupD_dict_intersection]
  by_cases hb : containsKey b k <;>
    cases ha : lookupD a k <;> simp_all [containsKey]

theorem containsKey_dict_difference {V : Type} (a b : Dict V) (k : String) :
    containsKey (dict_difference a b) k = (containsKey a k && !containsKey b k) := by
  rw [containsKey, lookupD_dict_difference]
  by_cases hb : containsKey b k <;>
    cases ha : lookupD a k <;> simp_all [containsKey]

theorem containsKey_dict_symmetric_difference {V : Type} (a b : Dict V) (k : String) :
    containsKey (dict_symmetric_difference a b) k =
      ((containsKey a k && !containsKey b k) || (containsKey b k && !containsKey a k)) := by
  rw [containsKey, lookupD_dict_symmetric_difference]
  by_cases hb : containsKey b k <;> by_cases ha : containsKey a k <;>
    cases h : lookupD a k <;> cases h' : lookupD b k <;> simp_all [containsKey]

theorem mem_of_lookupD {V : Type} {d : Dict V} {k : String} {v : V}
    (h : lookupD d k = some v) : (k, v) ∈ d := by
  induction d with
  | nil => simp at h
  | cons kv d ih =>
      obtain ⟨k', v'⟩ := kv
      by_cases hk : k' = k
      · subst hk
        rw [lookupD_cons, if_pos rfl] at h
        cases h
        exact List.mem_cons_self _ _
      · simp only [lookupD_cons, if_neg hk] at h
        exact List.mem_cons_of_mem _ (ih h)

theorem containsKey_iff_exists_mem {V : Type} (d : Dict V) (k : String) :
    containsKey d k = true ↔ ∃ v, (k, v) ∈ d := by
  constructor
  · intro h
    rw [containsKey] at h
    cases hv : lookupD d k with
    | none => rw [hv] at h; simp at h
    | some v => exact ⟨v, mem_of_lookupD hv⟩
  · rintro ⟨v, hv⟩
    exact lookupD_isSome_of_mem hv

theorem keySet_dict_union {V : Type} (a b : Dict V) :
    keySet (dict_union a b) = keySet a ∪ keySet b := by
  ext k
  simp [mem_keySet_iff_containsKey, containsKey_dict_union, Finset.mem_union]

theorem keySet_dict_intersection {V : Type} (a b : Dict V) :
    keySet (dict_intersection a b) = keySet a ∩ keySet b := by
  ext k
  simp [mem_keySet_iff_containsKey, containsKey_dict_intersection, Finset.mem_inter]

theorem keySet_dict_difference {V : Type} (a b : Dict V) :
    keySet (dict_difference a b) = keySet a \ keySet b := by
  ext k
  simp [mem_keySet_iff_containsKey, containsKey_dict_difference, Finset.mem_sdiff]

theorem dict_difference_self {V : Type} (a : Dict V) : dict_difference a a = [] := by
  rw [dict_difference, List.filter_eq_nil_iff]
  intro kv hkv
  have : containsKey a kv.1 = true := by
    rcases kv with ⟨k, v⟩
    exact lookupD_isSome_of_mem hkv
  simp [this]

theorem dict_symmetric_difference_self {V : Type} (a : Dict V) :
    dict_symmetric_difference a a = [] := by
  rw [dict_symmetric_difference]
  have : a.filter (fun kv => !containsKey a kv.1) = [] := by
    rw [List.filter_eq_nil_iff]
    intro kv hkv
    have : containsKey a kv.1 = true := by
      rcases kv with ⟨k, v⟩
      exact lookupD_isSome_of_mem hkv
    simp [this]
  rw [this]
  rfl

/-- C1: evaluating an Operator Node combines its two operands' node-record
maps key-wise: union is a dictionary merge in which the right operand wins
on key collision; intersect keeps exactly the keys present in both maps
(with the left value); difference keeps exactly the keys of the left map
absent from the right; symmetric_difference keeps exactly the keys present
in exactly one map, taking the value from whichever side has it. -/
theorem claim1_operator_node_combination {V : Type} (store : Store V)
    (l r : QueryExpr) (a b : Dict V)
    (hl : evalQuery store l = .ok a) (hr : evalQuery store r = .ok b) :
    (evalQuery store (.node "+" l r) = .ok (dict_union a b) ∧
     evalQuery store (.node "|" l r) = .ok (dict_union a b) ∧
     evalQuery store (.node "&" l r) = .ok (dict_intersection a b) ∧
     evalQuery store (.node "*" l r) = .ok (dict_intersection a b) ∧
     evalQuery store (.node "-" l r) = .ok (dict_difference a b) ∧
     evalQuery store (.node "^" l r) = .ok (dict_symmetric_difference a b)) ∧
    (∀ k, lookupD (dict_union a b) k = (lookupD b k).orElse (fun _ => lookupD a k)) ∧
    (∀ k, containsKey (dict_union a b) k = (containsKey a k || containsKey b k)) ∧
    (∀ k, containsKey (dict_intersection a b) k = (containsKey a k && containsKey b k)) ∧
    (∀ k, containsKey b k = true → lookupD (dict_intersection a b) k = lookupD a k) ∧
    (∀ k, containsKey (dict_difference a b) k = (containsKey a k && !containsKey b k)) ∧
    (∀ k, containsKey b k = false → lookupD (dict_difference a b) k = lookupD a k) ∧
    (∀ k, containsKey (dict_symmetric_difference a b) k =
        ((containsKey a k && !containsKey b k) || (containsKey b k && !containsKey a k))) ∧
    (∀ k, containsKey a k = true → containsKey b k = false →
        lookupD (dict_symmetric_difference a b) k = lookupD a k) ∧
    (∀ k, containsKey b k = true → containsKey a k = false →
        lookupD (dict_symmetric_difference a b) k = lookupD b k) := by
  refine ⟨⟨?_, ?_, ?_, ?_, ?_, ?_⟩, ?_, ?_, ?_, ?_, ?_, ?_, ?_, ?_, ?_⟩
  · simp [evalQuery, hl, hr]; rfl
  · simp [evalQuery, hl, hr]; rfl
  · simp [evalQuery, hl, hr]; rfl
  · simp [evalQuery, hl, hr]; rfl
  · simp [evalQuery, hl, hr]; rfl
  · simp [evalQuery, hl, hr]; rfl
  · exact lookupD_dict_union a b
  · exact containsKey_dict_union a b
  · exact containsKey_dict_intersection a b
  · intro k hk
    rw [lookupD_dict_intersection, if_pos hk]
  · exact containsKey_dict_difference a b
  · intro k hk
    rw [lookupD_dict_difference, hk]
    simp
  · exact containsKey_dict_symmetric_difference a b
  · intro k ha hb
    rw [lookupD_dict_symmetric_difference, hb]
    simp
  · intro k hb ha
    rw [lookupD_dict_symmetric_difference, hb, ha]
    simp

/-- Witness for C1 at a concrete store and pair of leaf queries. -/
theorem claim1_witness :
    (evalQuery wStore wLeafA = Except.ok [("#1:1", ()), ("#2:2", ())] ∧
     evalQuery wStore wLeafB = Except.ok [("#2:2", ()), ("#3:3", ())]) ∧
    (evalQuery wStore (.node "+" wLeafA wLeafB) =
      .ok (dict_union [("#1:1", ()), ("#2:2", ())] [("#2:2", ()), ("#3:3", ())]) ∧
     evalQuery wStore (.node "|" wLeafA wLeafB) =
      .ok (dict_union [("#1:1", ()), ("#2:2", ())] [("#2:2", ()), ("#3:3", ())]) ∧
     evalQuery wStore (.node "&" wLeafA wLeafB) =
      .ok (dict_intersection [("#1:1", ()), ("#2:2", ())] [("#2:2", ()), ("#3:3", ())]) ∧
     evalQuery wStore (.node "*" wLeafA wLeafB) =
      .ok (dict_intersection [("#1:1", ()), ("#2:2", ())] [("#2:2", ()), ("#3:3", ())]) ∧
     evalQuery wStore (.node "-" wLeafA wLeafB) =
      .ok (dict_difference [("#1:1", ()), ("#2:2", ())] [("#2:2", ()), ("#3:3", ())]) ∧
     evalQuery wStore (.node "^" wLeafA wLeafB) =
      .ok (dict_symmetric_difference [("#1:1", ()), ("#2:2", ())] [("#2:2", ()), ("#3:3", ())])) :=
  ⟨⟨rfl, rfl⟩,
   (claim1_operator_node_combination wStore wLeafA wLeafB _ _ rfl rfl).1⟩

/-- C2 fails on the code: `__eq__` only checks the left operand's
execution flag, so an executed wrapper with an empty cache compares equal
to an unexecuted wrapper, contradicting "whenever either operand is
unexecuted, equality returns false". -/
theorem claim2_counterexample :
    ¬ (qwEq cexEqA cexEqB = true ↔
        (cexEqA.executed = true ∧ cexEqB.executed = true ∧
         keySet cexEqA.nodes = keySet cexEqB.nodes)) := by
  decide

/-- C2 amended: `A == B` holds iff `A` is executed and the two
node-identifier sets are equal; the right operand's execution flag is
never consulted, so in particular an unexecuted left operand always
compares unequal. -/
theorem claim2_amended {V : Type} (a b : QueryWrapper V) :
    qwEq a b = true ↔ (a.executed = true ∧ keySet a.nodes = keySet b.nodes) := by
  rw [qwEq]
  cases h : a.executed <;> simp [h]

/-- C6: for executed wrappers A, B, C over a fixed store state,
`A+B == B+A`, `(A+B)+C == A+(B+C)`, `A&A == A`, `A-A` and `A^A` yield
empty results, and the node-identifier set of `A&B` is a subset of both
operands' node-identifier sets. -/
theorem claim6_set_algebra {V : Type} (A B C : QueryWrapper V)
    (hA : A.executed = true) (hB : B.executed = true) (hC : C.executed = true) :
    qwEq (qwOr A B) (qwOr B A) = true ∧
    qwEq (qwOr (qwOr A B) C) (qwOr A (qwOr B C)) = true ∧
    qwEq (qwAnd A A) A = true ∧
    (qwSub A A).nodes = [] ∧
    (qwXor A A).nodes = [] ∧
    keySet (qwAnd A B).nodes ⊆ keySet A.nodes ∧
    keySet (qwAnd A B).nodes ⊆ keySet B.nodes := by
  refine ⟨?_, ?_, ?_, ?_, ?_, ?_, ?_⟩
  · rw [qwEq]
    simp only [qwOr, Bool.not_true, Bool.false_eq_true, if_false, decide_eq_true_eq]
    rw [keySet_dict_union, keySet_dict_union]
    exact Finset.union_comm _ _
  · rw [qwEq]
    simp only [qwOr, Bool.not_true, Bool.false_eq_true, if_false, decide_eq_true_eq]
    rw [keySet_dict_union, keySet_dict_union, keySet_dict_union, keySet_dict_union]
    exact Finset.union_assoc _ _ _
  · rw [qwEq]
    simp only [qwAnd, Bool.not_true, Bool.false_eq_true, if_false, decide_eq_true_eq]
    rw [keySet_dict_intersection]
    exact Finset.inter_self _
  · exact dict_difference_self A.nodes
  · exact dict_symmetric_difference_self A.nodes
  · rw [show (qwAnd A B).nodes = dict_intersection A.nodes B.nodes from rfl,
      keySet_dict_intersection]
    exact Finset.inter_subset_left
  · rw [show (qwAnd A B).nodes = dict_intersection A.nodes B.nodes from rfl,
      keySet_dict_intersection]
    exact Finset.inter_subset_right

/-- Witness for C6 at three concrete executed wrappers. -/
theorem claim6_witness :
    (wQWa.executed = true ∧ wQWb.executed = true ∧ wQWc.executed = true) ∧
    (qwEq (qwOr wQWa wQWb) (qwOr wQWb wQWa) = true ∧
     qwEq (qwOr (qwOr wQWa wQWb) wQWc) (qwOr wQWa (qwOr wQWb wQWc)) = true ∧
     qwEq (qwAnd wQWa wQWa) wQWa = true ∧
     (qwSub wQWa wQWa).nodes = [] ∧
     (qwXor wQWa wQWa).nodes = [] ∧
     keySet (qwAnd wQWa wQWb).nodes ⊆ keySet wQWa.nodes ∧
     keySet (qwAnd wQWa wQWb).nodes ⊆ keySet wQWb.nodes) :=
  ⟨⟨rfl, rfl, rfl⟩, claim6_set_algebra wQWa wQWb wQWc rfl rfl rfl⟩

/-- C5 fails as universally stated: on a node-executed wrapper whose edge
flag is unset, a subsequent `execute(edges=True)` call (without `force`)
does change the edge cache and the edge execution flag. -/
theorem claim5_counterexample :
    cexExecW.executed = true ∧ cexExecW.edges = [] ∧ cexExecW.edge_executed = false ∧
    executeQW wStore cexExecW true false =
      Except.ok ({ cexExecW with edges := [("#2:2", ()), ("#3:3", ())], edge_executed := true },
        [edge_query_from_node_rids ["#1:0"] ""]) :=
  ⟨rfl, rfl, rfl, rfl⟩

/-- C5 amended: once the execution flag is set, an `execute` call without
`force` never touches the node cache, the node flag or the query; it is a
complete no-op unless edges are requested while the edge flag is unset, in
which case it populates the edge cache from the store using the edge query
built from the cached node identifiers (sending only that one query, so
the node query is not re-run) and sets the edge flag; repeating the call
is then a no-op, and `execute_edges` behaves the same way. -/
theorem claim5_amended {V : Type} (store : Store V) (w : QueryWrapper V)
    (edges : Bool) (ec : String) (hw : w.executed = true) :
    (w.edge_executed = true → executeQW store w edges false = .ok (w, [])) ∧
    (edges = false → executeQW store w edges false = .ok (w, [])) ∧
    (w.edge_executed = false → edges = true →
      executeQW store w edges false =
        .ok ({ w with edges := store.run (edge_query_from_node_rids (keysD w.nodes) ""),
                      edge_executed := true },
             [edge_query_from_node_rids (keysD w.nodes) ""])) ∧
    (∀ w' t, executeQW store w edges false = .ok (w', t) →
        w'.nodes = w.nodes ∧ w'.executed = true ∧ w'.query = w.query ∧
        executeQW store w' edges false = .ok (w', [])) ∧
    (w.edge_executed = true → executeEdgesQW store w ec = .ok (w, [])) ∧
    (w.edge_executed = false →
      executeEdgesQW store w ec =
        .ok ({ w with edges := store.run (edge_query_from_node_rids (keysD w.nodes) ec),
                      edge_executed := true },
             [edge_query_from_node_rids (keysD w.nodes) ec])) := by
  refine ⟨?_, ?_, ?_, ?_, ?_, ?_⟩
  · intro he
    rw [executeQW]
    simp [hw, he]
  · intro he
    rw [executeQW]
    cases hee : w.edge_executed <;> simp [hw, he, hee]
  · intro he hedges
    rw [executeQW]
    simp [hw, he, hedges]
  · intro w' t hrun
    rw [executeQW] at hrun
    cases hee : w.edge_executed with
    | true =>
        simp only [hw, hee, Bool.not_false, Bool.and_self, if_true, if_pos] at hrun
        cases hrun
        refine ⟨rfl, hw, rfl, ?_⟩
        rw [executeQW]
        simp [hw, hee]
    | false =>
        cases hedges : edges with
        | false =>
            simp only [hw, hee, hedges, Bool.not_false, Bool.and_self, if_true,
              Bool.false_eq_true, if_false] at hrun
            cases hrun
            refine ⟨rfl, hw, rfl, ?_⟩
            rw [executeQW]
            simp [hw, hee]
        | true =>
            simp only [hw, hee, hedges, Bool.not_false, Bool.and_self, if_true,
              Bool.false_eq_true, if_false] at hrun
            cases hrun
            refine ⟨rfl, ?_, rfl, ?_⟩
            · simpa using hw
            · rw [executeQW]
              simp
  · intro he
    rw [executeEdgesQW]
    simp [hw, he]
  · intro he
    rw [executeEdgesQW]
    simp [hw, he]

/-- Witness for C5 at a concrete executed wrapper and store. -/
theorem claim5_witness :
    cexExecW.executed = true ∧
    (cexExecW.edge_executed = false → (true : Bool) = true →
      executeQW wStore cexExecW true false =
        .ok ({ cexExecW with
                edges := wStore.run (edge_query_from_node_rids (keysD cexExecW.nodes) ""),
                edge_executed := true },
             [edge_query_from_node_rids (keysD cexExecW.nodes) ""])) :=
  ⟨rfl, (claim5_amended wStore cexExecW true "" rfl).2.2.1⟩

/-- C4 fails in its defaults clause: with one stage and no depth keyword
arguments, the generated `unionall` covers both `$q0` and `$q1`, i.e. it
includes the depth-0 identity set rather than covering "all result sets
except the depth-0 identity set" (which would be `["$q1"]`). -/
theorem claim4_counterexample :
    gen_traversal_union_vars 1 none none = ["$q0", "$q1"] ∧
    gen_traversal_union_vars 1 none none ≠ ["$q1"] ∧
    "$q0" ∈ gen_traversal_union_vars 1 none none := by
  refine ⟨by decide, by decide, by decide⟩

/-- C4 amended: for a stage list of length `n ≥ 1` the traversal generator
builds `n + 1` nested result sets `$q0 ... $qn` (including the depth-0
identity set `$q0`); the generated union covers the result sets at depths
`min_depth ≤ d < max_depth` when both keyword arguments are supplied, and
when they are not supplied the defaults (`min_depth = 0`,
`max_depth = n + 1`) cover all `n + 1` result sets, including the depth-0
identity set. -/
theorem claim4_amended (n : Nat) (hn : 1 ≤ n) :
    (gen_traversal_qkeys n).length = n + 1 ∧
    (∀ i (h : i < (gen_traversal_qkeys n).length),
        (gen_traversal_qkeys n).get ⟨i, h⟩ = "$q" ++ toString i) ∧
    gen_traversal_union_vars n none none = gen_traversal_qkeys n ∧
    (∀ mi ma : Nat, ma ≤ n + 1 →
        (gen_traversal_union_vars n (some (mi : Int)) (some (ma : Int))).length = ma - mi ∧
        (∀ j, j < ma - mi →
          (gen_traversal_union_vars n (some (mi : Int)) (some (ma : Int)))[j]? =
            some ("$q" ++ toString (mi + j)))) := by
  have hkey : ∀ len m : Nat, pySliceIdx len ((m : Int)) = min m len := by
    intro len m
    rw [pySliceIdx, if_neg (by omega)]
    omega
  refine ⟨?_, ?_, ?_, ?_⟩
  · simp [gen_traversal_qkeys]
  · intro i h
    simp [gen_traversal_qkeys]
  · rw [gen_traversal_union_vars, pySlice]
    have hlen : (gen_traversal_qkeys n).length = n + 1 := by simp [gen_traversal_qkeys]
    rw [hlen]
    have h1 : pySliceIdx (n + 1) ((none : Option Int).getD 0) = 0 := by
      simp [pySliceIdx]
    have h2 : pySliceIdx (n + 1) ((none : Option Int).getD ((n : Int) + 1)) = n + 1 := by
      have : ((n : Int) + 1) = ((n + 1 : Nat) : Int) := by omega
      simp only [Option.getD_none, this, hkey]
      omega
    rw [h1, h2, List.drop_zero, List.take_of_length_le (le_of_eq hlen)]
  · intro mi ma hma
    have hlen : (gen_traversal_qkeys n).length = n + 1 := by simp [gen_traversal_qkeys]
    have hslice : gen_traversal_union_vars n (some (mi : Int)) (some (ma : Int)) =
        ((gen_traversal_qkeys n).take ma).drop mi := by
      rw [gen_traversal_union_vars, pySlice, hlen]
      simp only [Option.getD_some, hkey]
      rcases Nat.lt_or_ge mi (n + 1) with h | h
      · rw [Nat.min_eq_left (by omega), Nat.min_eq_left hma]
      · rw [Nat.min_eq_right (by omega), Nat.min_eq_left hma]
        have h1 : ((gen_traversal_qkeys n).take ma).drop (n + 1) = [] := by
          apply List.drop_eq_nil_of_le
          simp only [List.length_take, hlen]
          omega
        have h2 : ((gen_traversal_qkeys n).take ma).drop mi = [] := by
          apply List.drop_eq_nil_of_le
          simp only [List.length_take, hlen]
          omega
        rw [h1, h2]
    have hlen2 : (gen_traversal_union_vars n (some (mi : Int)) (some (ma : Int))).length =
        ma - mi := by
      rw [hslice]
      simp only [List.length_drop, List.length_take, hlen]
      omega
    refine ⟨hlen2, ?_⟩
    intro j hj
    rw [hslice, List.getElem?_drop, List.getElem?_take, if_pos (by omega : mi + j < ma),
      gen_traversal_qkeys, List.getElem?_map, List.getElem?_range (by omega : mi + j < n + 1)]
    rfl

/-- Witness for C4 at `n = 2` with explicit depths `1 ≤ d < 3`. -/
theorem claim4_witness :
    (1 ≤ 2 ∧ (3 : Nat) ≤ 2 + 1) ∧
    ((gen_traversal_union_vars 2 (some ((1 : Nat) : Int)) (some ((3 : Nat) : Int))).length
      = 3 - 1) :=
  ⟨⟨by decide, by decide⟩,
   ((claim4_amended 2 (by decide)).2.2.2 1 3 (by decide)).1⟩

theorem exceptBind_ok {α β : Type} (a : α) (f : α → Except String β) :
    (Except.ok a >>= f) = f a := rfl

theorem takeDiffRow_skip (new : Table) (colnames : List String)
    (colEdit : Option (List String)) (fr : Bool) (st : DiffState) (r : List String)
    (h : r.getD 0 "" = "..." ∨ r.getD 0 "" = "") :
    takeDiffRow new colnames colEdit fr st r = .ok st := by
  rw [List.getD_eq_getElem?_getD] at h
  rcases h with h | h <;> simp [takeDiffRow, h]

theorem foldE_skip (new : Table) (colnames : List String)
    (colEdit : Option (List String)) (fr : Bool) (rows : Grid) (st : DiffState)
    (h : ∀ r ∈ rows, r.getD 0 "" = "..." ∨ r.getD 0 "" = "") :
    foldE (takeDiffRow new colnames colEdit fr) st rows = .ok st := by
  induction rows with
  | nil => rfl
  | cons r rs ih =>
      have h1 := takeDiffRow_skip new colnames colEdit fr st r (h r (List.mem_cons_self r rs))
      have h2 := ih (fun r' hr' => h r' (List.mem_cons_of_mem r hr'))
      rw [foldE, h1]
      exact h2

theorem foldE_skip_front (new : Table) (colnames : List String)
    (colEdit : Option (List String)) (fr : Bool) (l1 l2 : Grid) (st : DiffState)
    (h : ∀ r ∈ l1, r.getD 0 "" = "..." ∨ r.getD 0 "" = "") :
    foldE (takeDiffRow new colnames colEdit fr) st (l1 ++ l2) =
      foldE (takeDiffRow new colnames colEdit fr) st l2 := by
  induction l1 with
  | nil => rfl
  | cons r rs ih =>
      have h1 := takeDiffRow_skip new colnames colEdit fr st r (h r (List.mem_cons_self r rs))
      have h2 := ih (fun r' hr' => h r' (List.mem_cons_of_mem r hr'))
      rw [List.cons_append, foldE, h1]
      exact h2

theorem takeDiffRow_rename (new : Table) (colnames : List String)
    (w z : String) (attrs : Row) (rest : List String) (st : DiffState)
    (hz : lookupD new.rows z = some attrs)
    (hsplit : pySplit (w ++ "->" ++ z) "->" = [w, z])
    (hw : 0 < w.length) (hzl : 0 < z.length) :
    takeDiffRow new colnames none false st ("->" :: (w ++ "->" ++ z) :: rest) =
      .ok { st with del := dictSet st.del w (), add := dictSet st.add z attrs } := by
  have hop : containsSub "->" "->" = true := by decide
  have hid : containsSub (w ++ "->" ++ z) "->" = true := by
    rw [containsSub, hsplit]
    simp
  have harrow : greedyArrow (pySplit (w ++ "->" ++ z) "->") "->" = some (w, z) := by
    rw [hsplit, greedyArrow]
    rw [show ([w, z] : List String).length = 2 from rfl]
    rw [show (List.range 2).reverse = [1, 0] from by decide]
    simp only [List.findSome?_cons, List.take, List.drop]
    simp [pyJoin, hw, hzl]
  have hlook : tableLookup new z = Except.ok attrs := by
    rw [tableLookup, hz]
  simp only [takeDiffRow, List.getD_eq_getElem?_getD, List.getElem?_cons_zero,
    List.getElem?_cons_succ, Option.getD_some]
  simp only [hop, hid, harrow, hlook]
  rfl

/-- C7: for every old and new node table identical except that one row's
id changes from `w` to `z` with attributes unchanged, the diff produces
`add` containing exactly `z` with the new row's full attributes, `del`
containing exactly `w`, and an empty `mod` — never a `mod` entry for `w`.
The diff grid produced by the external daff library for this scenario is
a header row, unchanged-row context markers, and one rename row
`['->', 'w->z', ...]`, per the output format documented in `take_diff`. -/
theorem claim7_rename (daffN : Table → Table → Grid) (old new : Table)
    (w z : String) (attrs : Row) (hdr rest : List String) (ctx1 ctx2 : Grid)
    (hold : (old.rows.map Prod.fst).Nodup) (hnew : (new.rows.map Prod.fst).Nodup)
    (hz : lookupD new.rows z = some attrs)
    (hsplit : pySplit (w ++ "->" ++ z) "->" = [w, z])
    (hw : 0 < w.length) (hzl : 0 < z.length)
    (hctx : ∀ r ∈ ctx1 ++ ctx2, r.getD 0 "" = "..." ∨ r.getD 0 "" = "")
    (hgrid : daffN old new =
      ("@@" :: hdr) :: (ctx1 ++ ("->" :: (w ++ "->" ++ z) :: rest) :: ctx2)) :
    diff_nodes daffN old new false =
      .ok { mod := [], del := [(w, ())], add := [(z, attrs)] } := by
  rw [diff_nodes, take_diff, hgrid, if_pos (And.intro hold hnew)]
  simp only [List.getD_cons_zero, List.getD_cons_succ, String.reduceEq, reduceIte,
    List.drop_succ_cons, List.drop_zero]
  rw [foldE_skip_front new _ none false ctx1 _ _
    (fun r hr => hctx r (List.mem_append_left ctx2 hr))]
  have hctx2 : ∀ r ∈ ctx2, r.getD 0 "" = "..." ∨ r.getD 0 "" = "" :=
    fun r hr => hctx r (List.mem_append_right ctx1 hr)
  rw [foldE, takeDiffRow_rename new _ w z attrs rest _ hz hsplit hw hzl]
  simp only [exceptBind_ok]
  rw [foldE_skip new _ none false ctx2 _ hctx2]
  simp only [exceptBind_ok]
  rfl

/-- Witness for C7: renaming the single row `w1` to `z1`. -/
theorem claim7_witness :
    ((wOldT.rows.map Prod.fst).Nodup ∧ (wNewT.rows.map Prod.fst).Nodup ∧
     lookupD wNewT.rows "z1" = some [("a", Value.num 1)] ∧
     pySplit ("w1" ++ "->" ++ "z1") "->" = ["w1", "z1"]) ∧
    diff_nodes (fun _ _ => wRenameGrid) wOldT wNewT false =
      .ok { mod := [], del := [("w1", ())], add := [("z1", [("a", Value.num 1)])] } :=
  ⟨⟨by decide, by decide, by decide, by decide⟩,
   claim7_rename (fun _ _ => wRenameGrid) wOldT wNewT "w1" "z1" [("a", Value.num 1)]
     ["id", "a"] ["1"] [] [] (by decide) (by decide) (by decide) (by decide)
     (by decide) (by decide) (by decide) (by decide)⟩

theorem exceptBind_err {α β : Type} (msg : String) (f : α → Except String β) :
    ((Except.error msg : Except String α) >>= f) = Except.error msg := rfl

/-- C9: inside `_diff`, both edge tables are filtered by
`_remove_edges_by_node` with the node diff's del keys before being handed
to `diff_edges`: the filtered tables contain exactly the rows of the
originals whose `in` and `out` endpoints both lie outside the del set. -/
theorem claim9_edge_filter (daffN daffE : Table → Table → Grid) (client : Client)
    (oN nN oE nE : Table) (fr : Bool) :
    (∀ (df : Table) (del_nodes : List String) (kr : String × Row),
        kr ∈ (remove_edges_by_node df del_nodes).rows ↔
          (kr ∈ df.rows ∧ valueIn (lookupD kr.2 "in") del_nodes = false ∧
           valueIn (lookupD kr.2 "out") del_nodes = false)) ∧
    (∀ d_n, diff_nodes daffN oN nN fr = .ok d_n →
        ∀ res, QW_diff daffN daffE client oN nN oE nE fr = .ok res →
          ∃ d_e, diff_edges daffE (remove_edges_by_node oE (keysD d_n.del))
                   (remove_edges_by_node nE (keysD d_n.del)) fr = .ok d_e ∧
            res.2.1 = d_e) := by
  constructor
  · intro df del_nodes kr
    rw [remove_edges_by_node]
    simp only [List.mem_filter, Bool.and_eq_true, Bool.not_eq_true']
  · intro d_n hdn res hres
    rw [QW_diff, hdn] at hres
    simp only [exceptBind_ok] at hres
    cases hde : diff_edges daffE (remove_edges_by_node oE (keysD d_n.del))
        (remove_edges_by_node nE (keysD d_n.del)) fr with
    | error msg =>
        rw [hde, exceptBind_err] at hres
        cases hres
    | ok d_e =>
        rw [hde] at hres
        simp only [exceptBind_ok] at hres
        refine ⟨d_e, rfl, ?_⟩
        cases htn : apply_node_diff client d_n with
        | error msg =>
            rw [htn, exceptBind_err] at hres
            cases hres
        | ok t_n =>
            rw [htn] at hres
            simp only [exceptBind_ok] at hres
            cases hte : apply_edge_diff client d_e with
            | error msg =>
                rw [hte, exceptBind_err] at hres
                cases hres
            | ok t_e =>
                rw [hte] at hres
                simp only [exceptBind_ok] at hres
                cases hres
                rfl

/-- Witness for C9 at empty tables with header-only daff grids. -/
theorem claim9_witness :
    (diff_nodes (fun _ _ => wHeaderGrid) wEmptyT wEmptyT false =
      .ok { mod := [], del := [], add := [] } ∧
     QW_diff (fun _ _ => wHeaderGrid) (fun _ _ => wHeaderGrid) cexClient
        wEmptyT wEmptyT wEmptyT wEmptyT false =
      .ok ({ mod := [], del := [], add := [] }, { mod := [], del := [], add := [] }, [], [])) ∧
    (∃ d_e, diff_edges (fun _ _ => wHeaderGrid)
        (remove_edges_by_node wEmptyT (keysD ({ mod := [], del := [], add := [] } : ChangeSet).del))
        (remove_edges_by_node wEmptyT (keysD ({ mod := [], del := [], add := [] } : ChangeSet).del))
        false = .ok d_e ∧
      (({ mod := [], del := [], add := [] } : ChangeSet),
        (({ mod := [], del := [], add := [] } : ChangeSet), ([] : List (Phase × List Stmt)),
          ([] : List (Phase × List Stmt)))).2.1 = d_e) :=
  ⟨⟨rfl, rfl⟩,
   (claim9_edge_filter (fun _ _ => wHeaderGrid) (fun _ _ => wHeaderGrid) cexClient
       wEmptyT wEmptyT wEmptyT wEmptyT false).2
     { mod := [], del := [], add := [] } rfl
     ({ mod := [], del := [], add := [] }, { mod := [], del := [], add := [] }, [], []) rfl⟩

theorem exceptNotOk {α : Type} (x : Except String α) (h : ∀ t, x ≠ .ok t) :
    ∃ msg, x = .error msg := by
  cases x with
  | error msg => exact ⟨msg, rfl⟩
  | ok t => exact absurd rfl (h t)

theorem collectE_forall2 {α β : Type} (f : α → Except String β) :
    ∀ (l : List α) (l' : List β), collectE f l = .ok l' →
      List.Forall₂ (fun x y => f x = .ok y) l l' := by
  intro l
  induction l with
  | nil =>
      intro l' h
      cases h
      exact List.Forall₂.nil
  | cons x xs ih =>
      intro l' h
      rw [collectE] at h
      cases hx : f x with
      | error msg => rw [hx, exceptBind_err] at h; cases h
      | ok y =>
          rw [hx] at h
          simp only [exceptBind_ok] at h
          cases hxs : collectE f xs with
          | error msg => rw [hxs, exceptBind_err] at h; cases h
          | ok ys =>
              rw [hxs] at h
              simp only [exceptBind_ok] at h
              cases h
              exact List.Forall₂.cons hx (ih ys hxs)

theorem forall2_mem_right {α β : Type} {R : α → β → Prop} :
    ∀ {l : List α} {l' : List β}, List.Forall₂ R l l' → ∀ y ∈ l', ∃ x ∈ l, R x y := by
  intro l l' h
  induction h with
  | nil => intro y hy; cases hy
  | cons hR _ ih =>
      intro y hy
      rcases List.mem_cons.mp hy with h' | h'
      · subst h'; exact ⟨_, List.mem_cons_self _ _, hR⟩
      · rcases ih y h' with ⟨x, hx, hRx⟩
        exact ⟨x, List.mem_cons_of_mem _ hx, hRx⟩

theorem forall2_mem_left {α β : Type} {R : α → β → Prop} :
    ∀ {l : List α} {l' : List β}, List.Forall₂ R l l' → ∀ x ∈ l, ∃ y ∈ l', R x y := by
  intro l l' h
  induction h with
  | nil => intro x hx; cases hx
  | cons hR _ ih =>
      intro x hx
      rcases List.mem_cons.mp hx with h' | h'
      · subst h'; exact ⟨_, List.mem_cons_self _ _, hR⟩
      · rcases ih x h' with ⟨y, hy, hRy⟩
        exact ⟨y, List.mem_cons_of_mem _ hy, hRy⟩

theorem collectE_ok_of_forall {α β : Type} (f : α → Except String β) :
    ∀ (l : List α), (∀ x ∈ l, ∃ y, f x = .ok y) → ∃ l', collectE f l = .ok l' := by
  intro l
  induction l with
  | nil => intro _; exact ⟨[], rfl⟩
  | cons x xs ih =>
      intro h
      rcases h x (List.mem_cons_self x xs) with ⟨y, hy⟩
      rcases ih (fun x' hx' => h x' (List.mem_cons_of_mem x hx')) with ⟨ys, hys⟩
      refine ⟨y :: ys, ?_⟩
      rw [collectE, hy]
      simp only [exceptBind_ok]
      rw [hys]
      rfl

theorem chunksGo_fuel {α : Type} (n : Nat) (hn : 0 < n) :
    ∀ (fuel1 fuel2 : Nat) (l : List α), l.length ≤ fuel1 → l.length ≤ fuel2 →
      chunksGo n fuel1 l = chunksGo n fuel2 l := by
  intro fuel1
  induction fuel1 with
  | zero =>
      intro fuel2 l h1 h2
      rw [List.eq_nil_of_length_eq_zero (Nat.le_zero.mp h1)]
      cases fuel2 <;> rfl
  | succ f1 ih =>
      intro fuel2 l h1 h2
      match l with
      | [] => cases fuel2 <;> rfl
      | x :: xs =>
          match fuel2 with
          | 0 => simp at h2
          | f2 + 1 =>
              rw [chunksGo, chunksGo]
              rw [ih f2 ((x :: xs).drop n)
                (by simp only [List.length_drop, List.length_cons]
                    simp only [List.length_cons] at h1
                    omega)
                (by simp only [List.length_drop, List.length_cons]
                    simp only [List.length_cons] at h2
                    omega)]

theorem chunks_nil {α : Type} (n : Nat) : chunks n ([] : List α) = [] := by
  rw [chunks]
  split <;> rfl

theorem chunks_cons_eq {α : Type} (n : Nat) (hn : 0 < n) (x : α) (xs : List α) :
    chunks n (x :: xs) = (x :: xs).take n :: chunks n ((x :: xs).drop n) := by
  rw [chunks, chunks, if_neg (Nat.pos_iff_ne_zero.mp hn),
    if_neg (Nat.pos_iff_ne_zero.mp hn)]
  rw [show (x :: xs).length = xs.length + 1 from rfl, chunksGo]
  rw [chunksGo_fuel n hn xs.length ((x :: xs).drop n).length ((x :: xs).drop n)
    (by simp only [List.length_drop, List.length_cons]; omega) (le_refl _)]

theorem chunks_flatten {α : Type} (n : Nat) (hn : 0 < n) (l : List α) :
    (chunks n l).flatten = l := by
  have key : ∀ (m : Nat) (l : List α), l.length ≤ m → (chunks n l).flatten = l := by
    intro m
    induction m with
    | zero =>
        intro l hl
        rw [List.eq_nil_of_length_eq_zero (Nat.le_zero.mp hl), chunks_nil]
        rfl
    | succ m ih =>
        intro l hl
        match l with
        | [] => rw [chunks_nil]; rfl
        | x :: xs =>
            rw [chunks_cons_eq n hn x xs, List.flatten_cons,
              ih ((x :: xs).drop n)
                (by simp only [List.length_drop, List.length_cons]
                    simp only [List.length_cons] at hl
                    omega),
              List.take_append_drop]
  exact key l.length l (le_refl _)

theorem chunks_mem_length {α : Type} (n : Nat) :
    ∀ (l : List α) (c : List α), c ∈ chunks n l → c.length ≤ n ∧ c ≠ [] := by
  have key : ∀ (m : Nat) (l : List α), l.length ≤ m →
      ∀ c, c ∈ chunks n l → c.length ≤ n ∧ c ≠ [] := by
    intro m
    induction m with
    | zero =>
        intro l hl c hc
        rw [List.eq_nil_of_length_eq_zero (Nat.le_zero.mp hl), chunks_nil] at hc
        cases hc
    | succ m ih =>
        intro l hl c hc
        match l with
        | [] => rw [chunks_nil] at hc; cases hc
        | x :: xs =>
            rcases Nat.eq_zero_or_pos n with hn | hn
            · subst hn
              rw [chunks, if_pos rfl] at hc
              cases hc
            · rw [chunks_cons_eq n hn x xs] at hc
              rcases List.mem_cons.mp hc with h' | h'
              · subst h'
                constructor
                · exact List.length_take_le n (x :: xs)
                · intro hnil
                  have := congrArg List.length hnil
                  simp at this
                  omega
              · exact ih ((x :: xs).drop n)
                  (by simp only [List.length_drop, List.length_cons]
                      simp only [List.length_cons] at hl
                      omega) c h'
  exact fun l c hc => key l.length l (le_refl _) c hc

theorem mem_of_mem_chunks {α : Type} (n : Nat) (hn : 0 < n) {l c : List α} {x : α}
    (hc : c ∈ chunks n l) (hx : x ∈ c) : x ∈ l := by
  rw [← chunks_flatten n hn l]
  exact List.mem_flatten.mpr ⟨c, hc, hx⟩

theorem exists_chunk_of_mem {α : Type} (n : Nat) (hn : 0 < n) {l : List α} {x : α}
    (hx : x ∈ l) : ∃ c ∈ chunks n l, x ∈ c := by
  rw [← chunks_flatten n hn l] at hx
  exact List.mem_flatten.mp hx

theorem bind_ok_inv {α β : Type} {x : Except String α} {f : α → Except String β} {b : β}
    (h : (x >>= f) = .ok b) : ∃ a, x = .ok a ∧ f a = .ok b := by
  cases x with
  | error m => rw [exceptBind_err] at h; cases h
  | ok a =>
      rw [exceptBind_ok] at h
      exact ⟨a, rfl, h⟩

theorem ite_phase_ok {β : Type} (b : Bool) (x : Except String (List β))
    (hempty : b = true → x = .ok []) (v : List β)
    (h : (if b = true then pure [] else x) = .ok v) : x = .ok v := by
  cases b with
  | true =>
      simp only [if_pos] at h
      cases h
      exact hempty rfl
  | false => simpa using h

theorem collect_stmt_rel {γ : Type} (f : String × γ → Except String Stmt)
    (hkey : ∀ kv st, f kv = .ok st → stmtKey st = kv.1)
    (N : Nat) (d : List (String × γ)) (scripts : List (List Stmt))
    (h : collectE (fun chunk => collectE f chunk) (chunks N d) = .ok scripts) :
    List.Forall₂
      (fun c s => s.length = c.length ∧ ∀ st ∈ s, ∃ kv ∈ c, stmtKey st = kv.1)
      (chunks N d) scripts := by
  refine (collectE_forall2 _ (chunks N d) scripts h).imp ?_
  intro c s hc
  have h2 := collectE_forall2 f c s hc
  refine ⟨(List.Forall₂.length_eq h2).symm, ?_⟩
  intro st hst
  rcases forall2_mem_right h2 st hst with ⟨kv, hkv, hfkv⟩
  exact ⟨kv, hkv, hkey kv st hfkv⟩

theorem addNodeStmt_key (cl : List String) (nc nc' : Option String) (k : String)
    (v : Row) (st : Stmt) (h : addNodeStmt cl nc k v = .ok (nc', st)) :
    stmtKey st = k := by
  rw [addNodeStmt] at h
  cases hf : addNodeFields cl v nc [] with
  | error m => rw [hf, exceptBind_err] at h; cases h
  | ok p =>
      rw [hf] at h
      simp only [exceptBind_ok] at h
      rcases p with ⟨nc2, fields⟩
      cases nc2 with
      | none => cases h
      | some cls =>
          rw [Except.ok.injEq, Prod.mk.injEq] at h
          rcases h with ⟨h1, h2⟩
          rw [← h2]
          rfl

theorem addNodeChunk_rel (cl : List String) :
    ∀ (c : List (String × Row)) (nc nc' : Option String) (s : List Stmt),
      addNodeChunk cl nc c = .ok (nc', s) →
      s.length = c.length ∧ ∀ st ∈ s, ∃ kv ∈ c, stmtKey st = kv.1 := by
  intro c
  induction c with
  | nil =>
      intro nc nc' s h
      cases h
      exact ⟨rfl, fun st hst => absurd hst (List.not_mem_nil st)⟩
  | cons kv rest ih =>
      intro nc nc' s h
      rcases kv with ⟨k, v⟩
      rw [addNodeChunk] at h
      rcases bind_ok_inv h with ⟨⟨nc1, stmt⟩, h1, h⟩
      rcases bind_ok_inv h with ⟨⟨nc2, stmts⟩, h2, h⟩
      rw [Except.ok.injEq, Prod.mk.injEq] at h
      rcases h with ⟨hnc, hs⟩
      rw [← hs]
      rcases ih nc1 nc2 stmts h2 with ⟨hlen, hmem⟩
      refine ⟨by simp [hlen], ?_⟩
      intro st hst
      rcases List.mem_cons.mp hst with h' | h'
      · subst h'
        exact ⟨(k, v), List.mem_cons_self _ _, addNodeStmt_key cl nc nc1 k v st h1⟩
      · rcases hmem st h' with ⟨kv', hkv', hkey'⟩
        exact ⟨kv', List.mem_cons_of_mem _ hkv', hkey'⟩

theorem addNodeChunks_rel (cl : List String) :
    ∀ (cs : List (List (String × Row))) (nc : Option String) (ls : List (List Stmt)),
      addNodeChunks cl nc cs = .ok ls →
      List.Forall₂
        (fun c s => s.length = c.length ∧ ∀ st ∈ s, ∃ kv ∈ c, stmtKey st = kv.1)
        cs ls := by
  intro cs
  induction cs with
  | nil =>
      intro nc ls h
      cases h
      exact List.Forall₂.nil
  | cons c rest ih =>
      intro nc ls h
      rw [addNodeChunks] at h
      rcases bind_ok_inv h with ⟨⟨nc1, stmts⟩, h1, h⟩
      rcases bind_ok_inv h with ⟨ls1, h2, h⟩
      cases h
      exact List.Forall₂.cons (addNodeChunk_rel cl c nc nc1 stmts h1) (ih nc1 ls1 h2)

theorem addEdgeStmt_key (cl : List String) (s0 s1 : EdgeVars) (k : String)
    (v : Row) (st : Stmt) (h : addEdgeStmt cl s0 k v = .ok (s1, st)) :
    stmtKey st = k := by
  rw [addEdgeStmt] at h
  cases hf : addEdgeFields cl v s0 with
  | error m => rw [hf, exceptBind_err] at h; cases h
  | ok p =>
      rw [hf] at h
      simp only [exceptBind_ok] at h
      rcases p with ⟨cls, inN, outN⟩
      cases cls with
      | none => cases h
      | some c =>
          cases outN with
          | none => cases h
          | some o =>
              cases inN with
              | none => cases h
              | some i =>
                  rw [Except.ok.injEq, Prod.mk.injEq] at h
                  rcases h with ⟨h1, h2⟩
                  rw [← h2]
                  rfl

theorem addEdgeChunk_rel (cl : List String) :
    ∀ (c : List (String × Row)) (s0 s1 : EdgeVars) (s : List Stmt),
      addEdgeChunk cl s0 c = .ok (s1, s) →
      s.length = c.length ∧ ∀ st ∈ s, ∃ kv ∈ c, stmtKey st = kv.1 := by
  intro c
  induction c with
  | nil =>
      intro s0 s1 s h
      cases h
      exact ⟨rfl, fun st hst => absurd hst (List.not_mem_nil st)⟩
  | cons kv rest ih =>
      intro s0 s1 s h
      rcases kv with ⟨k, v⟩
      rw [addEdgeChunk] at h
      rcases bind_ok_inv h with ⟨⟨sv1, stmt⟩, h1, h⟩
      rcases bind_ok_inv h with ⟨⟨sv2, stmts⟩, h2, h⟩
      rw [Except.ok.injEq, Prod.mk.injEq] at h
      rcases h with ⟨hnc, hs⟩
      rw [← hs]
      rcases ih sv1 sv2 stmts h2 with ⟨hlen, hmem⟩
      refine ⟨by simp [hlen], ?_⟩
      intro st hst
      rcases List.mem_cons.mp hst with h' | h'
      · subst h'
        exact ⟨(k, v), List.mem_cons_self _ _, addEdgeStmt_key cl s0 sv1 k v st h1⟩
      · rcases hmem st h' with ⟨kv', hkv', hkey'⟩
        exact ⟨kv', List.mem_cons_of_mem _ hkv', hkey'⟩

theorem addEdgeChunks_rel (cl : List String) :
    ∀ (cs : List (List (String × Row))) (s0 : EdgeVars) (ls : List (List Stmt)),
      addEdgeChunks cl s0 cs = .ok ls →
      List.Forall₂
        (fun c s => s.length = c.length ∧ ∀ st ∈ s, ∃ kv ∈ c, stmtKey st = kv.1)
        cs ls := by
  intro cs
  induction cs with
  | nil =>
      intro s0 ls h
      cases h
      exact List.Forall₂.nil
  | cons c rest ih =>
      intro s0 ls h
      rw [addEdgeChunks] at h
      rcases bind_ok_inv h with ⟨⟨sv1, stmts⟩, h1, h⟩
      rcases bind_ok_inv h with ⟨ls1, h2, h⟩
      cases h
      exact List.Forall₂.cons (addEdgeChunk_rel cl c s0 sv1 stmts h1) (ih sv1 ls1 h2)

theorem mod_nodes_rel (dm : Dict Row) (N : Nat) (ms : List (List Stmt))
    (h : mod_nodes dm N = .ok ms) :
    List.Forall₂
      (fun c s => s.length = c.length ∧ ∀ st ∈ s, ∃ kv ∈ c, stmtKey st = kv.1)
      (chunks N dm) ms := by
  refine collect_stmt_rel _ ?_ N dm ms h
  intro kv st hf
  by_cases hr : is_rid kv.1 = true
  · rw [if_pos hr] at hf
    cases hf
    rfl
  · rw [if_neg hr] at hf
    cases hf

theorem del_nodes_rel (dd : Dict Unit) (N : Nat) (ds : List (List Stmt))
    (h : del_nodes dd N = .ok ds) :
    List.Forall₂
      (fun c s => s.length = c.length ∧ ∀ st ∈ s, ∃ kv ∈ c, stmtKey st = kv.1)
      (chunks N dd) ds := by
  refine collect_stmt_rel _ ?_ N dd ds h
  intro kv st hf
  by_cases hr : is_rid kv.1 = true
  · rw [if_pos hr] at hf
    cases hf
    rfl
  · rw [if_neg hr] at hf
    cases hf

theorem del_edges_key (kv : String × Unit) (st : Stmt)
    (hf : (match pySplit kv.1 " " with
           | [outNode, cls, inNode] =>
               if is_rid inNode && is_rid outNode then
                 Except.ok (Stmt.deleteEdgeStmt kv.1 outNode cls inNode)
               else Except.error "identifiers must be RIDs"
           | _ => Except.error "ValueError: unpack") = .ok st) :
    stmtKey st = kv.1 := by
  cases hsplit : pySplit kv.1 " " with
  | nil => rw [hsplit] at hf; cases hf
  | cons a t1 =>
      cases t1 with
      | nil => rw [hsplit] at hf; cases hf
      | cons b t2 =>
          cases t2 with
          | nil => rw [hsplit] at hf; cases hf
          | cons c t3 =>
              cases t3 with
              | cons e t4 => rw [hsplit] at hf; cases hf
              | nil =>
                  rw [hsplit] at hf
                  have hf2 : (if (is_rid c && is_rid a) = true then
                      Except.ok (Stmt.deleteEdgeStmt kv.1 a b c)
                      else (Except.error "identifiers must be RIDs" : Except String Stmt)) =
                      Except.ok st := hf
                  by_cases hr : (is_rid c && is_rid a) = true
                  · rw [if_pos hr] at hf2
                    cases hf2
                    rfl
                  · rw [if_neg hr] at hf2
                    cases hf2

theorem del_edges_rel (dd : Dict Unit) (N : Nat) (ds : List (List Stmt))
    (h : del_edges dd N = .ok ds) :
    List.Forall₂
      (fun c s => s.length = c.length ∧ ∀ st ∈ s, ∃ kv ∈ c, stmtKey st = kv.1)
      (chunks N dd) ds := by
  refine collect_stmt_rel _ ?_ N dd ds h
  intro kv st hf
  exact del_edges_key kv st hf

theorem apply_node_diff_ok_inv (client : Client) (d : ChangeSet)
    (trace : List (Phase × List Stmt)) (h : apply_node_diff client d = .ok trace) :
    ∃ ms as ds,
      mod_nodes (nodeModFiltered d) 1000 = .ok ms ∧
      add_nodes client (nodeAddFiltered d) 1000 = .ok as ∧
      del_nodes d.del 1000 = .ok ds ∧
      trace = ms.map (fun s => (Phase.mod, s)) ++ as.map (fun s => (Phase.add, s)) ++
        ds.map (fun s => (Phase.del, s)) := by
  rw [apply_node_diff] at h
  rcases bind_ok_inv h with ⟨ms, hms, h⟩
  rcases bind_ok_inv h with ⟨as, has, h⟩
  rcases bind_ok_inv h with ⟨ds, hds, h⟩
  cases h
  rw [nodeModScripts] at hms
  rw [nodeAddScripts] at has
  rw [nodeDelScripts] at hds
  refine ⟨ms, as, ds, ?_, ?_, ?_, rfl⟩
  · refine ite_phase_ok _ _ ?_ ms hms
    intro hb
    rw [nodeModFiltered, List.isEmpty_iff.mp hb, mod_nodes]
    rw [show ([] : Dict Row).filter
        (fun kv => !containsKey d.add kv.1 && !containsKey d.del kv.1) = [] from rfl]
    rw [chunks_nil]
    rfl
  · refine ite_phase_ok _ _ ?_ as has
    intro hb
    rw [nodeAddFiltered, List.isEmpty_iff.mp hb, add_nodes]
    rw [show ([] : Dict Row).filter (fun kv => !containsKey d.del kv.1) = [] from rfl]
    rw [chunks_nil]
    rfl
  · refine ite_phase_ok _ _ ?_ ds hds
    intro hb
    rw [List.isEmpty_iff.mp hb, del_nodes, chunks_nil]
    rfl

theorem apply_edge_diff_ok_inv (client : Client) (d : ChangeSet)
    (trace : List (Phase × List Stmt)) (h : apply_edge_diff client d = .ok trace) :
    ∃ as ds,
      add_edges client (edgeAddFiltered d) 200 = .ok as ∧
      del_edges d.del 200 = .ok ds ∧
      trace = as.map (fun s => (Phase.add, s)) ++ ds.map (fun s => (Phase.del, s)) := by
  rw [apply_edge_diff] at h
  rcases bind_ok_inv h with ⟨as, has, h⟩
  rcases bind_ok_inv h with ⟨ds, hds, h⟩
  cases h
  rw [edgeAddScripts] at has
  rw [edgeDelScripts] at hds
  refine ⟨as, ds, ?_, ?_, rfl⟩
  · refine ite_phase_ok _ _ ?_ as has
    intro hb
    rw [edgeAddFiltered, List.isEmpty_iff.mp hb, add_edges]
    rw [show ([] : Dict Row).filter (fun kv => !containsKey d.del kv.1) = [] from rfl]
    rw [chunks_nil]
    rfl
  · refine ite_phase_ok _ _ ?_ ds hds
    intro hb
    rw [List.isEmpty_iff.mp hb, del_edges, chunks_nil]
    rfl

theorem pairwise_of_mem {α : Type} {R : α → α → Prop} :
    ∀ (l : List α), (∀ a ∈ l, ∀ b ∈ l, R a b) → l.Pairwise R := by
  intro l
  induction l with
  | nil => intro _; exact List.Pairwise.nil
  | cons x xs ih =>
      intro h
      refine List.Pairwise.cons ?_ (ih ?_)
      · intro b hb
        exact h x (List.mem_cons_self x xs) b (List.mem_cons_of_mem x hb)
      · intro a ha b hb
        exact h a (List.mem_cons_of_mem x ha) b (List.mem_cons_of_mem x hb)

theorem mem_const_map {α β : Type} {l : List α} {p : β} {x : β}
    (h : x ∈ l.map (fun _ => p)) : x = p := by
  rcases List.mem_map.mp h with ⟨s, _, hs⟩
  exact hs.symm

theorem forall2_scripts_lengths {γ : Type} {P : List (String × γ) → List Stmt → Prop}
    {cs : List (List (String × γ))} {ls : List (List Stmt)}
    (h : List.Forall₂ (fun c s => s.length = c.length ∧ P c s) cs ls) :
    ls.map List.length = cs.map List.length := by
  induction h with
  | nil => rfl
  | cons hR _ ih => simp [ih, hR.1]

theorem script_bounds {γ : Type} {P : List (String × γ) → List Stmt → Prop}
    (N : Nat) (dm : List (String × γ)) (ls : List (List Stmt))
    (hrel : List.Forall₂ (fun c s => s.length = c.length ∧ P c s) (chunks N dm) ls) :
    ∀ s ∈ ls, 0 < s.length ∧ s.length ≤ N := by
  intro s hs
  rcases forall2_mem_right hrel s hs with ⟨c, hc, hlen, _⟩
  rcases chunks_mem_length N dm c hc with ⟨hle, hne⟩
  rw [hlen]
  exact ⟨List.length_pos.mpr hne, hle⟩

theorem filter_phase_map_self (p : Phase) (ls : List (List Stmt)) :
    (ls.map (fun s => (p, s))).filter (fun ps => ps.1 = p) = ls.map (fun s => (p, s)) := by
  induction ls with
  | nil => rfl
  | cons s rest ih => simp [List.filter, ih]

theorem filter_phase_map_other (p q : Phase) (h : ¬q = p) (ls : List (List Stmt)) :
    (ls.map (fun s => (q, s))).filter (fun ps => ps.1 = p) = [] := by
  induction ls with
  | nil => rfl
  | cons s rest ih => simp [List.filter, ih, h]

/-- C3 fails for the edge engine: `apply_edge_diff` never reads the `mod`
map of its change-set, so a change-set with a nonempty `mod` produces no
statements at all rather than a modification phase. -/
theorem claim3_counterexample :
    cexEdgeMod.mod ≠ [] ∧ apply_edge_diff cexClient cexEdgeMod = .ok [] :=
  ⟨by decide, rfl⟩

/-- C3 amended: `apply_node_diff` commits every modification before any
addition and every addition before any deletion, with the entries of each
phase partitioned into chunks of at most 1000 (one statement per entry,
one transaction script per chunk, scripts matching the chunk partition of
the filtered maps exactly); `apply_edge_diff` has the same ordering and
chunking with bound 200 but processes only the `add` and `del` maps — it
never emits a modification phase, even when `mod` is nonempty. -/
theorem claim3_amended (client : Client) (dN dE : ChangeSet)
    (traceN traceE : List (Phase × List Stmt))
    (hN : apply_node_diff client dN = .ok traceN)
    (hE : apply_edge_diff client dE = .ok traceE) :
    ((traceN.map Prod.fst).Pairwise (fun p q => phaseRank p ≤ phaseRank q) ∧
     (traceN.filter (fun ps => ps.1 = Phase.mod)).map (fun ps => ps.2.length) =
       (chunks 1000 (nodeModFiltered dN)).map List.length ∧
     (traceN.filter (fun ps => ps.1 = Phase.add)).map (fun ps => ps.2.length) =
       (chunks 1000 (nodeAddFiltered dN)).map List.length ∧
     (traceN.filter (fun ps => ps.1 = Phase.del)).map (fun ps => ps.2.length) =
       (chunks 1000 dN.del).map List.length ∧
     (∀ ps ∈ traceN, 0 < ps.2.length ∧ ps.2.length ≤ 1000)) ∧
    ((traceE.map Prod.fst).Pairwise (fun p q => phaseRank p ≤ phaseRank q) ∧
     Phase.mod ∉ traceE.map Prod.fst ∧
     (traceE.filter (fun ps => ps.1 = Phase.add)).map (fun ps => ps.2.length) =
       (chunks 200 (edgeAddFiltered dE)).map List.length ∧
     (traceE.filter (fun ps => ps.1 = Phase.del)).map (fun ps => ps.2.length) =
       (chunks 200 dE.del).map List.length ∧
     (∀ ps ∈ traceE, 0 < ps.2.length ∧ ps.2.length ≤ 200)) := by
  rcases apply_node_diff_ok_inv client dN traceN hN with ⟨ms, as, ds, hms, has, hds, htr⟩
  rcases apply_edge_diff_ok_inv client dE traceE hE with ⟨es, fs, hes, hfs, htrE⟩
  have hmsrel := mod_nodes_rel (nodeModFiltered dN) 1000 ms hms
  have hasrel := addNodeChunks_rel client.classList (chunks 1000 (nodeAddFiltered dN)) none as has
  have hdsrel := del_nodes_rel dN.del 1000 ds hds
  have hesrel := addEdgeChunks_rel client.classList (chunks 200 (edgeAddFiltered dE))
    { cls := none, inN := none, outN := none } es hes
  have hfsrel := del_edges_rel dE.del 200 fs hfs
  subst htr htrE
  refine ⟨⟨?_, ?_, ?_, ?_, ?_⟩, ?_, ?_, ?_, ?_, ?_⟩
  · simp only [List.map_append, List.map_map]
    rw [List.pairwise_append]
    refine ⟨?_, ?_, ?_⟩
    · rw [List.pairwise_append]
      refine ⟨pairwise_of_mem _ ?_, pairwise_of_mem _ ?_, ?_⟩
      · intro a ha b hb
        rw [mem_const_map ha, mem_const_map hb]
      · intro a ha b hb
        rw [mem_const_map ha, mem_const_map hb]
      · intro a ha b hb
        rw [mem_const_map ha, mem_const_map hb]
        decide
    · exact pairwise_of_mem _ (fun a ha b hb => by
        rw [mem_const_map ha, mem_const_map hb])
    · intro a ha b hb
      rw [mem_const_map hb]
      rcases List.mem_append.mp ha with h' | h'
      · rw [mem_const_map h']
        decide
      · rw [mem_const_map h']
        decide
  · rw [List.filter_append, List.filter_append, filter_phase_map_self,
      filter_phase_map_other Phase.mod Phase.add (by decide),
      filter_phase_map_other Phase.mod Phase.del (by decide),
      List.append_nil, List.append_nil, List.map_map]
    exact forall2_scripts_lengths hmsrel
  · rw [List.filter_append, List.filter_append,
      filter_phase_map_other Phase.add Phase.mod (by decide), filter_phase_map_self,
      filter_phase_map_other Phase.add Phase.del (by decide),
      List.nil_append, List.append_nil, List.map_map]
    exact forall2_scripts_lengths hasrel
  · rw [List.filter_append, List.filter_append,
      filter_phase_map_other Phase.del Phase.mod (by decide),
      filter_phase_map_other Phase.del Phase.add (by decide), filter_phase_map_self,
      List.nil_append, List.nil_append, List.map_map]
    exact forall2_scripts_lengths hdsrel
  · intro ps hps
    rcases List.mem_append.mp hps with h' | h'
    · rcases List.mem_append.mp h' with h'' | h''
      · rcases List.mem_map.mp h'' with ⟨s, hs, hps'⟩
        rw [← hps']
        exact script_bounds 1000 (nodeModFiltered dN) ms hmsrel s hs
      · rcases List.mem_map.mp h'' with ⟨s, hs, hps'⟩
        rw [← hps']
        exact script_bounds 1000 (nodeAddFiltered dN) as hasrel s hs
    · rcases List.mem_map.mp h' with ⟨s, hs, hps'⟩
      rw [← hps']
      exact script_bounds 1000 dN.del ds hdsrel s hs
  · simp only [List.map_append, List.map_map]
    rw [List.pairwise_append]
    refine ⟨pairwise_of_mem _ ?_, pairwise_of_mem _ ?_, ?_⟩
    · intro a ha b hb
      rw [mem_const_map ha, mem_const_map hb]
    · intro a ha b hb
      rw [mem_const_map ha, mem_const_map hb]
    · intro a ha b hb
      rw [mem_const_map ha, mem_const_map hb]
      decide
  · simp only [List.map_append, List.map_map, List.mem_append]
    rintro (h' | h') <;> cases mem_const_map h'
  · rw [List.filter_append, filter_phase_map_self,
      filter_phase_map_other Phase.add Phase.del (by decide),
      List.append_nil, List.map_map]
    exact forall2_scripts_lengths hesrel
  · rw [List.filter_append,
      filter_phase_map_other Phase.del Phase.add (by decide), filter_phase_map_self,
      List.nil_append, List.map_map]
    exact forall2_scripts_lengths hfsrel
  · intro ps hps
    rcases List.mem_append.mp hps with h' | h'
    · rcases List.mem_map.mp h' with ⟨s, hs, hps'⟩
      rw [← hps']
      exact script_bounds 200 (edgeAddFiltered dE) es hesrel s hs
    · rcases List.mem_map.mp h' with ⟨s, hs, hps'⟩
      rw [← hps']
      exact script_bounds 200 dE.del fs hfsrel s hs

/-- Witness for C3 at concrete overlapping change-sets. -/
theorem claim3_witness :
    (apply_node_diff cexClient wOverlap =
      .ok [(Phase.mod, [Stmt.updateNode "#1:1" [("a", "1")]]),
           (Phase.add, [Stmt.createVertex "v1" "Neuron" []]),
           (Phase.del, [Stmt.deleteVertex "#2:2", Stmt.deleteVertex "#3:3"])] ∧
     apply_edge_diff cexClient wOverlapE =
      .ok [(Phase.add, [Stmt.createEdge "e1" "SendsTo" "#1:1" "#3:3"]),
           (Phase.del, [Stmt.deleteEdgeStmt "#1:1 SendsTo #2:2" "#1:1" "SendsTo" "#2:2"])]) ∧
    (([(Phase.mod, [Stmt.updateNode "#1:1" [("a", "1")]]),
       (Phase.add, [Stmt.createVertex "v1" "Neuron" []]),
       (Phase.del, [Stmt.deleteVertex "#2:2", Stmt.deleteVertex "#3:3"])].map
        Prod.fst).Pairwise (fun p q => phaseRank p ≤ phaseRank q)) :=
  ⟨⟨rfl, rfl⟩,
   (claim3_amended cexClient wOverlap wOverlapE _ _ rfl rfl).1.1⟩

/-- C8 fails as universally stated: a `mod` entry whose non-RID key also
occurs in `add` is silently filtered out of the mod phase and then
processed as an add, so `apply_node_diff` succeeds without raising. -/
theorem claim8_counterexample :
    is_rid "w" = false ∧
    containsKey cexModAdd.mod "w" = true ∧
    apply_node_diff cexClient cexModAdd =
      .ok [(Phase.add, [Stmt.createVertex "w" "Neuron" []])] :=
  ⟨rfl, rfl, rfl⟩

theorem addNodeFields_cons_eq (cl : List String) (field : String) (val : Value)
    (rest : List (String × Value)) (nc : Option String) (acc : List (String × String)) :
    addNodeFields cl ((field, val) :: rest) nc acc =
      if field = "class" then
        (match val with
         | Value.str c =>
             if cl.contains c = true then addNodeFields cl rest (some c) acc
             else .error "Assign new nodes to an existing class"
         | _ => .error "Assign new nodes to an existing class")
      else if val.isNullLike = true then addNodeFields cl rest nc acc
      else addNodeFields cl rest nc (acc ++ [(field, val.pyRepr)]) := rfl

theorem addNodeFields_ok (cl : List String) :
    ∀ (v : List (String × Value)) (nc : Option String) (acc : List (String × String)),
      (∀ p ∈ v, p.1 = "class" → ∃ c, p.2 = Value.str c ∧ cl.contains c = true) →
      ∃ nc' fields, addNodeFields cl v nc acc = .ok (nc', fields) ∧
        (((∃ p ∈ v, p.1 = "class") ∨ nc.isSome) → nc'.isSome) := by
  intro v
  induction v with
  | nil =>
      intro nc acc _
      refine ⟨nc, acc, rfl, ?_⟩
      rintro (⟨p, hp, _⟩ | h)
      · cases hp
      · exact h
  | cons fv rest ih =>
      intro nc acc hv
      rcases fv with ⟨field, val⟩
      by_cases hfield : field = "class"
      · rcases hv (field, val) (List.mem_cons_self _ _) hfield with ⟨c, hc, hcl⟩
        have hval : val = Value.str c := hc
        subst hval
        subst hfield
        rcases ih (some c) acc
            (fun p hp hcp => hv p (List.mem_cons_of_mem _ hp) hcp) with
          ⟨nc', fields, hrec, hsome⟩
        refine ⟨nc', fields, ?_, fun _ => hsome (Or.inr rfl)⟩
        have heq : addNodeFields cl (("class", Value.str c) :: rest) nc acc =
            if cl.contains c = true then addNodeFields cl rest (some c) acc
            else .error "Assign new nodes to an existing class" := rfl
        rw [heq, if_pos hcl]
        exact hrec
      · have heq := addNodeFields_cons_eq cl field val rest nc acc
        have hclass_rest : (∃ p ∈ (field, val) :: rest, p.1 = "class") →
            ∃ p ∈ rest, p.1 = "class" := by
          rintro ⟨p, hp, hcp⟩
          rcases List.mem_cons.mp hp with h' | h'
          · rw [h'] at hcp
            exact absurd hcp hfield
          · exact ⟨p, h', hcp⟩
        by_cases hnull : val.isNullLike = true
        · rcases ih nc acc
              (fun p hp hcp => hv p (List.mem_cons_of_mem _ hp) hcp) with
            ⟨nc2, fields2, hrec2, hsome2⟩
          refine ⟨nc2, fields2, ?_, ?_⟩
          · rw [heq, if_neg hfield, if_pos hnull]
            exact hrec2
          · rintro (h | h)
            · exact hsome2 (Or.inl (hclass_rest h))
            · exact hsome2 (Or.inr h)
        · rcases ih nc (acc ++ [(field, val.pyRepr)])
              (fun p hp hcp => hv p (List.mem_cons_of_mem _ hp) hcp) with
            ⟨nc1, fields1, hrec1, hsome1⟩
          refine ⟨nc1, fields1, ?_, ?_⟩
          · rw [heq, if_neg hfield, if_neg hnull]
            exact hrec1
          · rintro (h | h)
            · exact hsome1 (Or.inl (hclass_rest h))
            · exact hsome1 (Or.inr h)

theorem addNodeStmt_ok (cl : List String) (nc : Option String) (k : String) (v : Row)
    (hv : rowClassOK cl v) :
    ∃ nc' st, addNodeStmt cl nc k v = .ok (nc', st) := by
  rcases addNodeFields_ok cl v nc [] hv.2 with ⟨nc', fields, hrec, hsome⟩
  rcases Option.isSome_iff_exists.mp (hsome (Or.inl hv.1)) with ⟨cls, hcls⟩
  refine ⟨some cls, Stmt.createVertex k cls fields, ?_⟩
  rw [addNodeStmt, hrec]
  simp only [exceptBind_ok]
  rw [hcls]

theorem addNodeChunk_ok (cl : List String) :
    ∀ (c : List (String × Row)) (nc : Option String),
      (∀ kv ∈ c, rowClassOK cl kv.2) →
      ∃ nc' s, addNodeChunk cl nc c = .ok (nc', s) := by
  intro c
  induction c with
  | nil => intro nc _; exact ⟨nc, [], rfl⟩
  | cons kv rest ih =>
      intro nc hc
      rcases kv with ⟨k, v⟩
      rcases addNodeStmt_ok cl nc k v (hc (k, v) (List.mem_cons_self _ _)) with
        ⟨nc1, st, h1⟩
      rcases ih nc1 (fun kv' hkv' => hc kv' (List.mem_cons_of_mem _ hkv')) with
        ⟨nc2, s2, h2⟩
      refine ⟨nc2, st :: s2, ?_⟩
      rw [addNodeChunk, h1]
      simp only [exceptBind_ok]
      rw [h2]
      rfl

theorem addNodeChunks_ok (cl : List String) :
    ∀ (cs : List (List (String × Row))) (nc : Option String),
      (∀ c ∈ cs, ∀ kv ∈ c, rowClassOK cl kv.2) →
      ∃ ls, addNodeChunks cl nc cs = .ok ls := by
  intro cs
  induction cs with
  | nil => intro nc _; exact ⟨[], rfl⟩
  | cons c rest ih =>
      intro nc hcs
      rcases addNodeChunk_ok cl c nc (hcs c (List.mem_cons_self _ _)) with ⟨nc1, s1, h1⟩
      rcases ih nc1 (fun c' hc' => hcs c' (List.mem_cons_of_mem _ hc')) with ⟨ls1, h2⟩
      refine ⟨s1 :: ls1, ?_⟩
      rw [addNodeChunks, h1]
      simp only [exceptBind_ok]
      rw [h2]
      rfl

/-- C8 amended: a `del` entry keyed by a non-RID always makes
`apply_node_diff` raise; a `mod` entry keyed by a non-RID makes it raise
provided the key survives the overlap filtering (it is not also in `add`
or `del`); an edge `del` entry whose key does not split into two RID
endpoints makes `apply_edge_diff` raise; `add` entries are exempt — a
node change-set with only adds succeeds whenever every added row carries
a registered class, regardless of whether its keys are RIDs. -/
theorem claim8_amended (client : Client) (d dE : ChangeSet) :
    (∀ k, containsKey d.del k = true → is_rid k = false →
        ∃ msg, apply_node_diff client d = .error msg) ∧
    (∀ k, containsKey (nodeModFiltered d) k = true → is_rid k = false →
        ∃ msg, apply_node_diff client d = .error msg) ∧
    (∀ k, containsKey dE.del k = true → edgeDelKeyOK k = false →
        ∃ msg, apply_edge_diff client dE = .error msg) ∧
    (d.mod = [] → d.del = [] →
      (∀ kv ∈ d.add, rowClassOK client.classList kv.2) →
      ∃ trace, apply_node_diff client d = .ok trace) := by
  refine ⟨?_, ?_, ?_, ?_⟩
  · intro k hk hr
    refine exceptNotOk _ ?_
    intro trace htrace
    rcases apply_node_diff_ok_inv client d trace htrace with ⟨ms, as, ds, _, _, hds, _⟩
    rcases containsKey_iff_exists_mem d.del k |>.mp hk with ⟨v, hv⟩
    rcases exists_chunk_of_mem 1000 (by omega) hv with ⟨c, hc, hmem⟩
    have hrel := collectE_forall2 _ (chunks 1000 d.del) ds hds
    rcases forall2_mem_left hrel c hc with ⟨s, _, hcs⟩
    have hinner := collectE_forall2 _ c s hcs
    rcases forall2_mem_left hinner (k, v) hmem with ⟨st, _, hstk⟩
    rw [if_neg (by rw [hr]; exact Bool.false_ne_true)] at hstk
    cases hstk
  · intro k hk hr
    refine exceptNotOk _ ?_
    intro trace htrace
    rcases apply_node_diff_ok_inv client d trace htrace with ⟨ms, as, ds, hms, _, _, _⟩
    rcases containsKey_iff_exists_mem (nodeModFiltered d) k |>.mp hk with ⟨v, hv⟩
    rcases exists_chunk_of_mem 1000 (by omega) hv with ⟨c, hc, hmem⟩
    have hrel := collectE_forall2 _ (chunks 1000 (nodeModFiltered d)) ms hms
    rcases forall2_mem_left hrel c hc with ⟨s, _, hcs⟩
    have hinner := collectE_forall2 _ c s hcs
    rcases forall2_mem_left hinner (k, v) hmem with ⟨st, _, hstk⟩
    rw [if_neg (by rw [hr]; exact Bool.false_ne_true)] at hstk
    cases hstk
  · intro k hk hr
    refine exceptNotOk _ ?_
    intro trace htrace
    rcases apply_edge_diff_ok_inv client dE trace htrace with ⟨es, fs, _, hfs, _⟩
    rcases containsKey_iff_exists_mem dE.del k |>.mp hk with ⟨v, hv⟩
    rcases exists_chunk_of_mem 200 (by omega) hv with ⟨c, hc, hmem⟩
    have hrel := collectE_forall2 _ (chunks 200 dE.del) fs hfs
    rcases forall2_mem_left hrel c hc with ⟨s, _, hcs⟩
    have hinner := collectE_forall2 _ c s hcs
    rcases forall2_mem_left hinner (k, v) hmem with ⟨st, _, hstk⟩
    rcases hsplit : pySplit k " " with _ | ⟨a, _ | ⟨b, _ | ⟨c', _ | _⟩⟩⟩ <;>
      rw [hsplit] at hstk
    case cons.cons.cons.nil =>
      have hr2 : (is_rid c' && is_rid a) = false := by
        rw [edgeDelKeyOK, hsplit] at hr
        exact hr
      have hstk2 : (if (is_rid c' && is_rid a) = true then
          Except.ok (Stmt.deleteEdgeStmt (k, v).1 a b c')
          else (Except.error "identifiers must be RIDs" : Except String Stmt)) =
          Except.ok st := hstk
      rw [if_neg (by rw [hr2]; exact Bool.false_ne_true)] at hstk2
      cases hstk2
    all_goals cases hstk
  · intro hmod hdel hclass
    rw [apply_node_diff, nodeModScripts, nodeAddScripts, nodeDelScripts, hmod, hdel]
    simp only [List.isEmpty_nil, if_pos]
    have hok : ∃ ls, add_nodes client (nodeAddFiltered d) 1000 = .ok ls := by
      refine addNodeChunks_ok client.classList _ none ?_
      intro c hc kv hkv
      have : kv ∈ nodeAddFiltered d := mem_of_mem_chunks 1000 (by omega) hc hkv
      have : kv ∈ d.add := List.mem_of_mem_filter this
      exact hclass kv this
    rcases hok with ⟨ls, hls⟩
    cases hadd : d.add.isEmpty with
    | true =>
        refine ⟨[], ?_⟩
        rw [if_pos rfl]
        rfl
    | false =>
        refine ⟨ls.map (fun s => (Phase.add, s)), ?_⟩
        rw [if_neg Bool.false_ne_true, hls]
        simp only [exceptBind_ok]
        rw [show (pure [] : Except String (List (List Stmt))) = Except.ok [] from rfl]
        simp only [exceptBind_ok]
        simp

/-- Witness for C8: a non-RID del key makes the node apply raise. -/
theorem claim8_witness :
    (containsKey wBadDel.del "v9" = true ∧ is_rid "v9" = false) ∧
    (∃ msg, apply_node_diff cexClient wBadDel = .error msg) :=
  ⟨⟨rfl, rfl⟩, (claim8_amended cexClient wBadDel wBadDel).1 "v9" rfl rfl⟩

theorem scripts_keys_sub {γ : Type} {P : List (String × γ) → List Stmt → Prop}
    (N : Nat) (hn : 0 < N) (dm : List (String × γ)) (ls : List (List Stmt))
    (hrel : List.Forall₂
      (fun c s => P c s ∧ ∀ st ∈ s, ∃ kv ∈ c, stmtKey st = kv.1) (chunks N dm) ls)
    (k : String) (hk : k ∈ (ls.flatten).map stmtKey) : containsKey dm k = true := by
  rcases List.mem_map.mp hk with ⟨st, hst, hkey⟩
  rcases List.mem_flatten.mp hst with ⟨s, hs, hsts⟩
  rcases forall2_mem_right hrel s hs with ⟨c, hc, _, hkeys⟩
  rcases hkeys st hsts with ⟨kv, hkv, hkvkey⟩
  have hmem : kv ∈ dm := mem_of_mem_chunks N hn hc hkv
  rw [← hkey, hkvkey]
  refine (containsKey_iff_exists_mem dm kv.1).mpr ⟨kv.2, ?_⟩
  exact hmem

theorem nodeModFiltered_props (d : ChangeSet) (k : String)
    (h : containsKey (nodeModFiltered d) k = true) :
    containsKey d.add k = false ∧ containsKey d.del k = false := by
  rcases (containsKey_iff_exists_mem _ k).mp h with ⟨v, hv⟩
  rcases List.mem_filter.mp hv with ⟨_, hpred⟩
  simp only [Bool.and_eq_true, Bool.not_eq_true'] at hpred
  exact hpred

theorem nodeAddFiltered_props (d : ChangeSet) (k : String)
    (h : containsKey (nodeAddFiltered d) k = true) :
    containsKey d.add k = true ∧ containsKey d.del k = false := by
  rcases (containsKey_iff_exists_mem _ k).mp h with ⟨v, hv⟩
  rcases List.mem_filter.mp hv with ⟨hmem, hpred⟩
  simp only [Bool.not_eq_true'] at hpred
  exact ⟨(containsKey_iff_exists_mem _ k).mpr ⟨v, hmem⟩, hpred⟩

theorem nodeModFiltered_mod (d : ChangeSet) (k : String)
    (h : containsKey (nodeModFiltered d) k = true) : containsKey d.mod k = true := by
  rcases (containsKey_iff_exists_mem _ k).mp h with ⟨v, hv⟩
  rcases List.mem_filter.mp hv with ⟨hmem, _⟩
  exact (containsKey_iff_exists_mem _ k).mpr ⟨v, hmem⟩

/-- C10: within one apply call no identifier is processed in more than one
phase: `apply_node_diff` drops from `mod` every key also present in `add`
or `del` and from `add` every key also present in `del`, and
`apply_edge_diff` drops from `add` every key also present in `del`; hence
a key scheduled for deletion is never also created or updated by the same
call, a key being added is never also updated, and the per-phase processed
key sets are pairwise disjoint. -/
theorem claim10_phase_disjoint (client : Client) (dN dE : ChangeSet)
    (traceN traceE : List (Phase × List Stmt))
    (hN : apply_node_diff client dN = .ok traceN)
    (hE : apply_edge_diff client dE = .ok traceE) :
    (∀ k, containsKey dN.del k = true →
        k ∉ phaseKeys traceN Phase.mod ∧ k ∉ phaseKeys traceN Phase.add) ∧
    (∀ k, containsKey dN.add k = true → k ∉ phaseKeys traceN Phase.mod) ∧
    (∀ k p₁ p₂, k ∈ phaseKeys traceN p₁ → k ∈ phaseKeys traceN p₂ → p₁ = p₂) ∧
    (∀ k, containsKey dE.del k = true → k ∉ phaseKeys traceE Phase.add) ∧
    (∀ k p₁ p₂, k ∈ phaseKeys traceE p₁ → k ∈ phaseKeys traceE p₂ → p₁ = p₂) := by
  rcases apply_node_diff_ok_inv client dN traceN hN with ⟨ms, as, ds, hms, has, hds, htr⟩
  rcases apply_edge_diff_ok_inv client dE traceE hE with ⟨es, fs, hes, hfs, htrE⟩
  have hmsrel := mod_nodes_rel (nodeModFiltered dN) 1000 ms hms
  have hasrel := addNodeChunks_rel client.classList (chunks 1000 (nodeAddFiltered dN)) none as has
  have hdsrel := del_nodes_rel dN.del 1000 ds hds
  have hesrel := addEdgeChunks_rel client.classList (chunks 200 (edgeAddFiltered dE))
    { cls := none, inN := none, outN := none } es hes
  have hfsrel := del_edges_rel dE.del 200 fs hfs
  subst htr htrE
  have hpk_mod : phaseKeys
      (ms.map (fun s => (Phase.mod, s)) ++ as.map (fun s => (Phase.add, s)) ++
        ds.map (fun s => (Phase.del, s))) Phase.mod = (ms.flatten).map stmtKey := by
    rw [phaseKeys, List.filter_append, List.filter_append, filter_phase_map_self,
      filter_phase_map_other Phase.mod Phase.add (by decide),
      filter_phase_map_other Phase.mod Phase.del (by decide),
      List.append_nil, List.append_nil, List.map_map]
    rw [show (Prod.snd ∘ fun s => (Phase.mod, s)) = id from rfl, List.map_id]
  have hpk_add : phaseKeys
      (ms.map (fun s => (Phase.mod, s)) ++ as.map (fun s => (Phase.add, s)) ++
        ds.map (fun s => (Phase.del, s))) Phase.add = (as.flatten).map stmtKey := by
    rw [phaseKeys, List.filter_append, List.filter_append,
      filter_phase_map_other Phase.add Phase.mod (by decide), filter_phase_map_self,
      filter_phase_map_other Phase.add Phase.del (by decide),
      List.nil_append, List.append_nil, List.map_map]
    rw [show (Prod.snd ∘ fun s => (Phase.add, s)) = id from rfl, List.map_id]
  have hpk_del : phaseKeys
      (ms.map (fun s => (Phase.mod, s)) ++ as.map (fun s => (Phase.add, s)) ++
        ds.map (fun s => (Phase.del, s))) Phase.del = (ds.flatten).map stmtKey := by
    rw [phaseKeys, List.filter_append, List.filter_append,
      filter_phase_map_other Phase.del Phase.mod (by decide),
      filter_phase_map_other Phase.del Phase.add (by decide), filter_phase_map_self,
      List.nil_append, List.nil_append, List.map_map]
    rw [show (Prod.snd ∘ fun s => (Phase.del, s)) = id from rfl, List.map_id]
  have hpkE_mod : phaseKeys
      (es.map (fun s => (Phase.add, s)) ++ fs.map (fun s => (Phase.del, s)))
      Phase.mod = [] := by
    rw [phaseKeys, List.filter_append,
      filter_phase_map_other Phase.mod Phase.add (by decide),
      filter_phase_map_other Phase.mod Phase.del (by decide)]
    rfl
  have hpkE_add : phaseKeys
      (es.map (fun s => (Phase.add, s)) ++ fs.map (fun s => (Phase.del, s)))
      Phase.add = (es.flatten).map stmtKey := by
    rw [phaseKeys, List.filter_append, filter_phase_map_self,
      filter_phase_map_other Phase.add Phase.del (by decide),
      List.append_nil, List.map_map]
    rw [show (Prod.snd ∘ fun s => (Phase.add, s)) = id from rfl, List.map_id]
  have hpkE_del : phaseKeys
      (es.map (fun s => (Phase.add, s)) ++ fs.map (fun s => (Phase.del, s)))
      Phase.del = (fs.flatten).map stmtKey := by
    rw [phaseKeys, List.filter_append,
      filter_phase_map_other Phase.del Phase.add (by decide), filter_phase_map_self,
      List.nil_append, List.map_map]
    rw [show (Prod.snd ∘ fun s => (Phase.del, s)) = id from rfl, List.map_id]
  have hmodsub : ∀ k, k ∈ (ms.flatten).map stmtKey →
      containsKey (nodeModFiltered dN) k = true :=
    fun k hk => scripts_keys_sub 1000 (by omega) _ ms hmsrel k hk
  have haddsub : ∀ k, k ∈ (as.flatten).map stmtKey →
      containsKey (nodeAddFiltered dN) k = true :=
    fun k hk => scripts_keys_sub 1000 (by omega) _ as hasrel k hk
  have hdelsub : ∀ k, k ∈ (ds.flatten).map stmtKey → containsKey dN.del k = true :=
    fun k hk => scripts_keys_sub 1000 (by omega) _ ds hdsrel k hk
  have headdsub : ∀ k, k ∈ (es.flatten).map stmtKey →
      containsKey (edgeAddFiltered dE) k = true :=
    fun k hk => scripts_keys_sub 200 (by omega) _ es hesrel k hk
  have hedelsub : ∀ k, k ∈ (fs.flatten).map stmtKey → containsKey dE.del k = true :=
    fun k hk => scripts_keys_sub 200 (by omega) _ fs hfsrel k hk
  refine ⟨?_, ?_, ?_, ?_, ?_⟩
  · intro k hk
    constructor
    · rw [hpk_mod]
      intro hmem
      have := (nodeModFiltered_props dN k (hmodsub k hmem)).2
      rw [hk] at this
      cases this
    · rw [hpk_add]
      intro hmem
      have := (nodeAddFiltered_props dN k (haddsub k hmem)).2
      rw [hk] at this
      cases this
  · intro k hk
    rw [hpk_mod]
    intro hmem
    have := (nodeModFiltered_props dN k (hmodsub k hmem)).1
    rw [hk] at this
    cases this
  · intro k p₁ p₂ h1 h2
    have key : ∀ p, k ∈ phaseKeys
        (ms.map (fun s => (Phase.mod, s)) ++ as.map (fun s => (Phase.add, s)) ++
          ds.map (fun s => (Phase.del, s))) p →
        (p = Phase.mod → containsKey dN.add k = false ∧ containsKey dN.del k = false) ∧
        (p = Phase.add → containsKey dN.add k = true ∧ containsKey dN.del k = false) ∧
        (p = Phase.del → containsKey dN.del k = true) := by
      intro p hp
      cases p with
      | mod =>
          rw [hpk_mod] at hp
          refine ⟨fun _ => nodeModFiltered_props dN k (hmodsub k hp), ?_, ?_⟩
          · intro h
            cases h
          · intro h
            cases h
      | add =>
          rw [hpk_add] at hp
          refine ⟨?_, fun _ => nodeAddFiltered_props dN k (haddsub k hp), ?_⟩
          · intro h
            cases h
          · intro h
            cases h
      | del =>
          rw [hpk_del] at hp
          refine ⟨?_, ?_, fun _ => hdelsub k hp⟩
          · intro h
            cases h
          · intro h
            cases h
    cases p₁ with
    | mod =>
        cases p₂ with
        | mod => rfl
        | add =>
            exfalso
            have ha := ((key Phase.mod h1).1 rfl).1
            have hb := ((key Phase.add h2).2.1 rfl).1
            rw [ha] at hb
            cases hb
        | del =>
            exfalso
            have ha := ((key Phase.mod h1).1 rfl).2
            have hb := (key Phase.del h2).2.2 rfl
            rw [ha] at hb
            cases hb
    | add =>
        cases p₂ with
        | mod =>
            exfalso
            have ha := ((key Phase.mod h2).1 rfl).1
            have hb := ((key Phase.add h1).2.1 rfl).1
            rw [ha] at hb
            cases hb
        | add => rfl
        | del =>
            exfalso
            have ha := ((key Phase.add h1).2.1 rfl).2
            have hb := (key Phase.del h2).2.2 rfl
            rw [ha] at hb
            cases hb
    | del =>
        cases p₂ with
        | mod =>
            exfalso
            have ha := ((key Phase.mod h2).1 rfl).2
            have hb := (key Phase.del h1).2.2 rfl
            rw [ha] at hb
            cases hb
        | add =>
            exfalso
            have ha := ((key Phase.add h2).2.1 rfl).2
            have hb := (key Phase.del h1).2.2 rfl
            rw [ha] at hb
            cases hb
        | del => rfl
  · intro k hk
    rw [hpkE_add]
    intro hmem
    have := (nodeAddFiltered_props { mod := dE.mod, del := dE.del, add := dE.add } k ?_).2
    · rw [hk] at this
      cases this
    · exact headdsub k hmem
  · intro k p₁ p₂ h1 h2
    cases p₁ with
    | mod => rw [hpkE_mod] at h1; cases h1
    | add =>
        cases p₂ with
        | mod => rw [hpkE_mod] at h2; cases h2
        | add => rfl
        | del =>
            exfalso
            rw [hpkE_add] at h1
            rw [hpkE_del] at h2
            have ha := (nodeAddFiltered_props
              { mod := dE.mod, del := dE.del, add := dE.add } k (headdsub k h1)).2
            have hb := hedelsub k h2
            rw [ha] at hb
            cases hb
    | del =>
        cases p₂ with
        | mod => rw [hpkE_mod] at h2; cases h2
        | del => rfl
        | add =>
            exfalso
            rw [hpkE_add] at h2
            rw [hpkE_del] at h1
            have ha := (nodeAddFiltered_props
              { mod := dE.mod, del := dE.del, add := dE.add } k (headdsub k h2)).2
            have hb := hedelsub k h1
            rw [ha] at hb
            cases hb

/-- Witness for C10 at the concrete overlapping change-sets. -/
theorem claim10_witness :
    (apply_node_diff cexClient wOverlap =
      .ok [(Phase.mod, [Stmt.updateNode "#1:1" [("a", "1")]]),
           (Phase.add, [Stmt.createVertex "v1" "Neuron" []]),
           (Phase.del, [Stmt.deleteVertex "#2:2", Stmt.deleteVertex "#3:3"])] ∧
     apply_edge_diff cexClient wOverlapE =
      .ok [(Phase.add, [Stmt.createEdge "e1" "SendsTo" "#1:1" "#3:3"]),
           (Phase.del, [Stmt.deleteEdgeStmt "#1:1 SendsTo #2:2" "#1:1" "SendsTo" "#2:2"])]) ∧
    (∀ k, containsKey wOverlap.del k = true →
        k ∉ phaseKeys
          [(Phase.mod, [Stmt.updateNode "#1:1" [("a", "1")]]),
           (Phase.add, [Stmt.createVertex "v1" "Neuron" []]),
           (Phase.del, [Stmt.deleteVertex "#2:2", Stmt.deleteVertex "#3:3"])] Phase.mod ∧
        k ∉ phaseKeys
          [(Phase.mod, [Stmt.updateNode "#1:1" [("a", "1")]]),
           (Phase.add, [Stmt.createVertex "v1" "Neuron" []]),
           (Phase.del, [Stmt.deleteVertex "#2:2", Stmt.deleteVertex "#3:3"])] Phase.add) :=
  ⟨⟨rfl, rfl⟩,
   (claim10_phase_disjoint cexClient wOverlap wOverlapE _ _ rfl rfl).1⟩
